import Mathlib

/-!
Shallow embedding of the editing engine of the `wee` terminal text editor
(src/wee.c) and verification of the spec's claims about it.

C `int` fields that hold coordinates are modelled as `Int`; row buffers
(`chars`, `render`, `hl`) are modelled as Lean lists whose lengths play the
role of the C `size` / `rsize` fields.  List indexing with an `Int` index goes
through `Int.toNat` together with a default element; the C code only ever
indexes in bounds on the states the claims quantify over.
-/

namespace Wee

/-- `#define WEE_TAB_STOP 4` -/
def WEE_TAB_STOP : Nat := 4

/- `enum editorHighlight` values. -/
def HL_NORMAL : Nat := 0
def HL_COMMENT : Nat := 1
def HL_MLCOMMENT : Nat := 2
def HL_KEYWORD1 : Nat := 3
def HL_KEYWORD2 : Nat := 4
def HL_STRING : Nat := 5
def HL_NUMBER : Nat := 6
def HL_MATCH : Nat := 7
def HL_SELECTION : Nat := 8

def HL_HIGHLIGHT_NUMBERS : Nat := 1
def HL_HIGHLIGHT_STRINGS : Nat := 2

/- `enum editorKey` values used by `editorMoveSelection`. -/
def ARROW_LEFT : Nat := 1000
def ARROW_RIGHT : Nat := 1001
def ARROW_UP : Nat := 1002
def ARROW_DOWN : Nat := 1003

/- `enum editorMode`. -/
def NORMAL_MODE : Nat := 0
def SELECTION_MODE : Nat := 1

/-- `typedef struct erow` from src/wee.c.  `size` is `chars.length` and
`rsize` is `render.length`; `hl_open_comment` is an `int` that only ever
holds 0 or 1, modelled as `Bool`. -/
structure erow where
  idx : Int
  chars : List Char
  render : List Char
  hl : List Nat
  hl_open_comment : Bool
deriving Repr, DecidableEq

/-- Default row used by out-of-bounds index reads (never reached on the
in-bounds states the claims are about). -/
def emptyErow : erow :=
  { idx := 0, chars := [], render := [], hl := [], hl_open_comment := false }

/-- `&E.row[i]` (read). -/
def rowGet (rows : List erow) (i : Int) : erow :=
  rows.getD i.toNat emptyErow

/-- Writing back through `&E.row[i]`. -/
def rowsSet (rows : List erow) (i : Int) (r : erow) : List erow :=
  rows.set i.toNat r

/-- One step of the `rx` accumulation in `editorRowCxToRx` /
`editorRowRxToCx`: `if (c == '\t') rx += (WEE_TAB_STOP - 1) - (rx % WEE_TAB_STOP); rx++;`. -/
def rxStep (rx : Nat) (c : Char) : Nat :=
  if c = '\t' then rx + ((WEE_TAB_STOP - 1) - rx % WEE_TAB_STOP) + 1 else rx + 1

/-- The loop of `editorRowCxToRx`, folding `rxStep` over the first `cx`
characters. -/
def cxToRxGo : List Char → Nat → Nat
  | [], rx => rx
  | c :: rest, rx => cxToRxGo rest (rxStep rx c)

/-- `int editorRowCxToRx(erow *row, int cx)` (src/wee.c:358). -/
def editorRowCxToRx (chars : List Char) (cx : Nat) : Nat :=
  cxToRxGo (chars.take cx) 0

/-- The loop of `editorRowRxToCx`: walk the row, returning the first `cx`
whose accumulated render column exceeds `rx`, else the row length. -/
def rxToCxGo (rx : Nat) : List Char → Nat → Nat → Nat
  | [], _, cx => cx
  | c :: rest, cur_rx, cx =>
    let cur_rx' := rxStep cur_rx c
    if cur_rx' > rx then cx else rxToCxGo rx rest cur_rx' (cx + 1)

/-- `int editorRowRxToCx(erow *row, int rx)` (src/wee.c:375). -/
def editorRowRxToCx (chars : List Char) (rx : Nat) : Nat :=
  rxToCxGo rx chars 0 0

/-- The render-buffer construction of `editorUpdateRow` (src/wee.c:392): a
tab emits one space and then pads with spaces until the length is a multiple
of `WEE_TAB_STOP`; any other character is copied. -/
def renderOfChars (chars : List Char) : List Char :=
  chars.foldl
    (fun acc c =>
      if c = '\t' then
        acc ++ List.replicate (WEE_TAB_STOP - acc.length % WEE_TAB_STOP) ' '
      else acc ++ [c])
    []

lemma rxStep_gt (rx : Nat) (c : Char) : rx < rxStep rx c := by
  unfold rxStep; split <;> omega

lemma cxToRxGo_le (l : List Char) : ∀ rx : Nat, rx + l.length ≤ cxToRxGo l rx := by
  induction l with
  | nil => intro rx; simp [cxToRxGo]
  | cons c rest ih =>
    intro rx
    have h1 := rxStep_gt rx c
    have h2 := ih (rxStep rx c)
    simpa [cxToRxGo] using by omega

lemma cxToRxGo_append (l1 l2 : List Char) :
    ∀ rx : Nat, cxToRxGo (l1 ++ l2) rx = cxToRxGo l2 (cxToRxGo l1 rx) := by
  induction l1 with
  | nil => intro rx; simp [cxToRxGo]
  | cons c rest ih => intro rx; simp [cxToRxGo, ih]

lemma rxToCx_cxToRx_go (chars : List Char) :
    ∀ (cx cur0 cnt : Nat), cx ≤ chars.length →
      rxToCxGo (cxToRxGo (chars.take cx) cur0) chars cur0 cnt = cnt + cx := by
  induction chars with
  | nil =>
    intro cx cur0 cnt hcx
    have : cx = 0 := Nat.le_zero.mp hcx
    subst this
    simp [cxToRxGo, rxToCxGo]
  | cons c rest ih =>
    intro cx cur0 cnt hcx
    match cx with
    | 0 =>
      simp only [List.take_zero, cxToRxGo, rxToCxGo]
      simp [rxStep_gt cur0 c]
    | Nat.succ k =>
      have hk : k ≤ rest.length := by simpa using hcx
      have hge : rxStep cur0 c ≤ cxToRxGo (rest.take k) (rxStep cur0 c) := by
        have := cxToRxGo_le (rest.take k) (rxStep cur0 c); omega
      simp only [List.take_succ_cons, cxToRxGo, rxToCxGo]
      rw [if_neg (by omega)]
      rw [ih k (rxStep cur0 c) (cnt + 1) hk]
      omega

/-- C3: for every row and every character index `cx` with
`0 ≤ cx ≤ row.length`, `editorRowRxToCx row (editorRowCxToRx row cx) = cx`;
moreover `editorRowCxToRx` is monotone non-decreasing in `cx` and its result
is at least `cx`. -/
theorem C3_cx_rx_roundtrip_monotone (chars : List Char) (cx : Nat)
    (hcx : cx ≤ chars.length) :
    editorRowRxToCx chars (editorRowCxToRx chars cx) = cx
    ∧ (∀ cx', cx ≤ cx' → editorRowCxToRx chars cx ≤ editorRowCxToRx chars cx')
    ∧ cx ≤ editorRowCxToRx chars cx := by
  refine ⟨?_, ?_, ?_⟩
  · simpa [editorRowRxToCx, editorRowCxToRx] using
      rxToCx_cxToRx_go chars cx 0 0 hcx
  · intro cx' hle
    have hsplit : chars.take cx' = chars.take cx ++ (chars.take cx').drop cx := by
      conv_lhs => rw [← List.take_append_drop cx (chars.take cx')]
      rw [List.take_take, Nat.min_eq_left hle]
    unfold editorRowCxToRx
    rw [hsplit, cxToRxGo_append]
    have := cxToRxGo_le ((chars.take cx').drop cx) (cxToRxGo (chars.take cx) 0)
    omega
  · have h2 := cxToRxGo_le (chars.take cx) 0
    have h1 : (chars.take cx).length = cx := by
      simp [List.length_take, Nat.min_eq_left hcx]
    rw [h1] at h2
    unfold editorRowCxToRx
    omega

/-- Witness for C3 at the concrete row `"a\tb"` and `cx = 2`. -/
theorem C3_witness :
    2 ≤ (['a', '\t', 'b'] : List Char).length
    ∧ (editorRowRxToCx ['a', '\t', 'b'] (editorRowCxToRx ['a', '\t', 'b'] 2) = 2
       ∧ (∀ cx', 2 ≤ cx' →
            editorRowCxToRx ['a', '\t', 'b'] 2 ≤ editorRowCxToRx ['a', '\t', 'b'] cx')
       ∧ 2 ≤ editorRowCxToRx ['a', '\t', 'b'] 2) :=
  ⟨by decide, C3_cx_rx_roundtrip_monotone ['a', '\t', 'b'] 2 (by decide)⟩

/-- `struct editorSyntax` (renamed: `syntax` is reserved in Lean).  A `NULL`
marker pointer and an empty marker string behave identically in the C code
(both give `*_len == 0`), so markers are plain lists.  Keyword strings and
markers are C strings and hence contain no NUL character. -/
structure EditorSyntaxRules where
  keywords : List (List Char)
  singleline_comment_start : List Char
  multiline_comment_start : List Char
  multiline_comment_end : List Char
  flags : Nat
deriving Repr, DecidableEq

/-- `int is_separator(int c)` (src/wee.c:1089): C-locale `isspace`, NUL, or
one of the punctuation characters. -/
def is_separator (c : Char) : Bool :=
  c = ' ' || c = '\t' || c = '\n' || c = '\x0b' || c = '\x0c' || c = '\r'
  || c = '\x00' || (",.()+-/*=~%<>[];".toList.contains c)

/-- `!strncmp(&l[i], s, s.length)`: the `s.length` characters of `l` starting
at `i` are exactly `s` (a match running past the end of `l` fails, as `strncmp`
hits the NUL terminator). -/
def matchAt (l : List Char) (i : Nat) (s : List Char) : Bool :=
  (l.drop i).take s.length == s

/-- `memset(&hl[i], v, len)` (in-bounds at every call site). -/
def hlMemset (hl : List Nat) (i len v : Nat) : List Nat :=
  hl.mapIdx (fun j x => if i ≤ j ∧ j < i + len then v else x)

/-- Keyword length after stripping a trailing `'|'` marker
(`klen--` when `keywords[j][klen-1] == '|'`). -/
def kwLen (kw : List Char) : Nat :=
  if kw.getLast? = some '|' then kw.length - 1 else kw.length

/-- `kw2`: the keyword entry carries the secondary-class marker `'|'`. -/
def kwIsK2 (kw : List Char) : Bool :=
  kw.getLast? = some '|'

/-- The keyword test of `editorUpdateSyntax`:
`!strncmp(&render[i], kw, klen) && is_separator(render[i + klen])`; the read
at `render[i + klen]` can hit the NUL terminator one past the end, modelled by
the `'\x00'` default. -/
def kwMatches (render : List Char) (i : Nat) (kw : List Char) : Bool :=
  matchAt render i (kw.take (kwLen kw))
    && is_separator (render.getD (i + kwLen kw) '\x00')

/-- Outcome of one iteration of the `while (i < row->rsize)` scan loop of
`editorUpdateSyntax`: either `break`/fall out of the loop or `continue` with
updated scanning state. -/
inductive ScanOutcome where
  | brk (hl : List Nat) (in_comment : Bool)
  | cont (i : Nat) (hl : List Nat) (prev_sep : Bool) (in_string : Option Char)
      (in_comment : Bool)
deriving Repr, DecidableEq

/-- One iteration of the scan loop of `editorUpdateSyntax`
(src/wee.c:1128-1214), mirroring the guarded `continue` blocks in their
source order; a block that the C code falls through is the `else`/fallthrough
continuation here. -/
def scanStep (sp : EditorSyntaxRules) (render : List Char) (i : Nat)
    (hl : List Nat) (prev_sep : Bool) (in_string : Option Char)
    (in_comment : Bool) : ScanOutcome :=
  let c := render.getD i ' '
  let prev_hl := if 0 < i then hl.getD (i - 1) HL_NORMAL else HL_NORMAL
  let scs := sp.singleline_comment_start
  let mcs := sp.multiline_comment_start
  let mce := sp.multiline_comment_end
  -- numbers / keywords / bottom of the loop (reached by fallthrough from the
  -- string block in two places)
  let afterStrings : ScanOutcome :=
    if sp.flags &&& HL_HIGHLIGHT_NUMBERS ≠ 0
        ∧ ((c.isDigit ∧ (prev_sep ∨ prev_hl = HL_NUMBER))
           ∨ (c = '.' ∧ prev_hl = HL_NUMBER)) then
      ScanOutcome.cont (i + 1) (hl.set i HL_NUMBER) false in_string in_comment
    else
      match if prev_sep then sp.keywords.find? (fun kw => kwMatches render i kw)
            else none with
      | some kw =>
          ScanOutcome.cont (i + kwLen kw)
            (hlMemset hl i (kwLen kw) (if kwIsK2 kw then HL_KEYWORD2 else HL_KEYWORD1))
            false in_string in_comment
      | none =>
          ScanOutcome.cont (i + 1) hl (is_separator c) in_string in_comment
  -- single-line comment: classify the rest of the row, then `break`
  if scs.length ≠ 0 ∧ in_string = none ∧ ¬in_comment ∧ matchAt render i scs then
    ScanOutcome.brk (hlMemset hl i (render.length - i) HL_COMMENT) in_comment
  -- multi-line comment, already inside one
  else if mcs.length ≠ 0 ∧ mce.length ≠ 0 ∧ in_string = none ∧ in_comment then
    let hl1 := hl.set i HL_MLCOMMENT
    if matchAt render i mce then
      ScanOutcome.cont (i + mce.length) (hlMemset hl1 i mce.length HL_MLCOMMENT)
        true none false
    else
      ScanOutcome.cont (i + 1) hl1 prev_sep in_string in_comment
  -- multi-line comment start marker
  else if mcs.length ≠ 0 ∧ mce.length ≠ 0 ∧ in_string = none
      ∧ matchAt render i mcs then
    ScanOutcome.cont (i + mcs.length) (hlMemset hl i mcs.length HL_MLCOMMENT)
      prev_sep in_string true
  else
    -- string highlighting
    match in_string with
    | some q =>
      if sp.flags &&& HL_HIGHLIGHT_STRINGS ≠ 0 then
        let hl1 := hl.set i HL_STRING
        if c = '\\' ∧ i + 1 < render.length then
          ScanOutcome.cont (i + 2) (hl1.set (i + 1) HL_STRING) prev_sep (some q)
            in_comment
        else
          ScanOutcome.cont (i + 1) hl1 true (if c = q then none else some q)
            in_comment
      else afterStrings
    | none =>
      if sp.flags &&& HL_HIGHLIGHT_STRINGS ≠ 0 ∧ (c = '"' ∨ c = '\'') then
        ScanOutcome.cont (i + 1) (hl.set i HL_STRING) prev_sep (some c) in_comment
      else afterStrings

/-- The `while (i < row->rsize)` loop of `editorUpdateSyntax`, with explicit
fuel.  Every iteration of the C loop either advances `i` or switches
`prev_sep` off for the current position, so `2 * rsize + 2` fuel is never
exhausted where the C loop terminates. -/
def updateSyntaxGo (sp : EditorSyntaxRules) (render : List Char) :
    Nat → Nat → List Nat → Bool → Option Char → Bool → List Nat × Bool
  | 0, _, hl, _, _, in_comment => (hl, in_comment)
  | fuel + 1, i, hl, prev_sep, in_string, in_comment =>
    if i < render.length then
      match scanStep sp render i hl prev_sep in_string in_comment with
      | ScanOutcome.brk hl' ic => (hl', ic)
      | ScanOutcome.cont i' hl' ps' is' ic' =>
          updateSyntaxGo sp render fuel i' hl' ps' is' ic'
    else (hl, in_comment)

/-- The per-row part of `editorUpdateSyntax` (src/wee.c:1107-1217) when a
syntax profile is loaded: reset `hl` to `HL_NORMAL`, scan with
`prev_sep = 1`, `in_string = 0` and `in_comment = row->hl_open_comment`
(the row's own stored flag, as in the source), and store the scan's exit
state back into `hl_open_comment`. -/
def scanRowWith (sp : EditorSyntaxRules) (row : erow) : erow :=
  let res := updateSyntaxGo sp row.render (2 * row.render.length + 2) 0
    (List.replicate row.render.length HL_NORMAL) true none row.hl_open_comment
  { row with hl := res.1, hl_open_comment := res.2 }

/-- `editorUpdateSyntax` on the row at position `i` including its recursive
propagation `if (changed && row->idx + 1 < E.numrows)
editorUpdateSyntax(&E.row[row->idx + 1])`.  `row->idx` equals the row's
position in the store (the invariant of claim C2), so the recursion target is
modelled as `i + 1`.  `numrows` is passed explicitly because
`editorInsertRow` runs this before incrementing `E.numrows`.  With
`E.syntax == NULL` the function clears `hl` and returns without
propagating. -/
def updateSyntaxCascadeGo (p : EditorSyntaxRules) (numrows : Nat) :
    Nat → List erow → Nat → List erow
  | 0, rows, _ => rows
  | fuel + 1, rows, i =>
    if i < rows.length then
      if (scanRowWith p (rows.getD i emptyErow)).hl_open_comment
          ≠ (rows.getD i emptyErow).hl_open_comment ∧ i + 1 < numrows then
        updateSyntaxCascadeGo p numrows fuel
          (rows.set i (scanRowWith p (rows.getD i emptyErow))) (i + 1)
      else rows.set i (scanRowWith p (rows.getD i emptyErow))
    else rows

def editorUpdateSyntaxAt (sp : Option EditorSyntaxRules) (numrows : Nat)
    (rows : List erow) (i : Nat) : List erow :=
  match sp with
  | none =>
    if i < rows.length then
      rows.set i { rows.getD i emptyErow with
        hl := List.replicate (rows.getD i emptyErow).render.length HL_NORMAL }
    else rows
  | some p =>
    -- the fuel `rows.length - i` is exact: each propagation step advances `i`
    -- by one on a store of unchanged length, and fuel 0 means `i ≥ length`,
    -- where the C recursion guard `row->idx + 1 < E.numrows` has already
    -- stopped the chain
    updateSyntaxCascadeGo p numrows (rows.length - i) rows i

/-- Rows strictly before the scanned row are never touched by the forward
propagation loop. -/
lemma updateSyntaxCascadeGo_get?_lt (p : EditorSyntaxRules) (numrows : Nat) :
    ∀ (fuel : Nat) (rows : List erow) (i : Nat), ∀ k, k < i →
      (updateSyntaxCascadeGo p numrows fuel rows i)[k]? = rows[k]? := by
  intro fuel
  induction fuel with
  | zero => intro rows i k hk; rfl
  | succ fuel ih =>
    intro rows i k hk
    unfold updateSyntaxCascadeGo
    by_cases h : i < rows.length
    · rw [if_pos h]
      by_cases hg : (scanRowWith p (rows.getD i emptyErow)).hl_open_comment
          ≠ (rows.getD i emptyErow).hl_open_comment ∧ i + 1 < numrows
      · rw [if_pos hg]
        rw [ih (rows.set i (scanRowWith p (rows.getD i emptyErow))) (i + 1) k
            (by omega)]
        exact List.getElem?_set_ne (by omega)
      · rw [if_neg hg]
        exact List.getElem?_set_ne (by omega)
    · rw [if_neg h]

/-- C7: after scanning the row at position `i`, the recompute is propagated to
the next row exactly when the scan's open-comment exit state differs from the
value stored before the scan (and a next row exists); when it does not
differ, only row `i` itself is replaced, so the chain stops there; rows
before `i` are never touched. -/
theorem C7_syntax_propagation (sp : EditorSyntaxRules) (numrows : Nat)
    (rows : List erow) (i : Nat) (h : i < rows.length) :
    (¬((scanRowWith sp (rows.getD i emptyErow)).hl_open_comment
          ≠ (rows.getD i emptyErow).hl_open_comment ∧ i + 1 < numrows) →
        editorUpdateSyntaxAt (some sp) numrows rows i
          = rows.set i (scanRowWith sp (rows.getD i emptyErow)))
    ∧ (((scanRowWith sp (rows.getD i emptyErow)).hl_open_comment
          ≠ (rows.getD i emptyErow).hl_open_comment ∧ i + 1 < numrows) →
        editorUpdateSyntaxAt (some sp) numrows rows i
          = editorUpdateSyntaxAt (some sp) numrows
              (rows.set i (scanRowWith sp (rows.getD i emptyErow))) (i + 1))
    ∧ (∀ k, k < i →
        (editorUpdateSyntaxAt (some sp) numrows rows i)[k]? = rows[k]?) := by
  have hexp : editorUpdateSyntaxAt (some sp) numrows rows i
      = updateSyntaxCascadeGo sp numrows (rows.length - i) rows i := rfl
  obtain ⟨k0, hk0⟩ : ∃ k0, rows.length - i = k0 + 1 := ⟨rows.length - (i + 1), by omega⟩
  refine ⟨?_, ?_, ?_⟩
  · intro hg
    rw [hexp, hk0]
    unfold updateSyntaxCascadeGo
    rw [if_pos h, if_neg hg]
  · intro hg
    rw [hexp, hk0]
    unfold updateSyntaxCascadeGo
    rw [if_pos h, if_pos hg]
    have : editorUpdateSyntaxAt (some sp) numrows
        (rows.set i (scanRowWith sp (rows.getD i emptyErow))) (i + 1)
        = updateSyntaxCascadeGo sp numrows
            ((rows.set i (scanRowWith sp (rows.getD i emptyErow))).length - (i + 1))
            (rows.set i (scanRowWith sp (rows.getD i emptyErow))) (i + 1) := rfl
    rw [this]
    have hlen : (rows.set i (scanRowWith sp (rows.getD i emptyErow))).length - (i + 1)
        = k0 := by simp only [List.length_set]; omega
    rw [hlen]
  · intro k hk
    rw [hexp]
    exact updateSyntaxCascadeGo_get?_lt sp numrows (rows.length - i) rows i k hk

/-- A small C-like syntax profile with multi-line comment markers. -/
def demoRules : EditorSyntaxRules :=
  { keywords := ["if".toList, "int|".toList]
    singleline_comment_start := "//".toList
    multiline_comment_start := "/*".toList
    multiline_comment_end := "*/".toList
    flags := HL_HIGHLIGHT_NUMBERS + HL_HIGHLIGHT_STRINGS }

/-- A row whose render buffer opens a multi-line comment. -/
def demoRowOpen : erow :=
  { idx := 0, chars := "/* c".toList, render := "/* c".toList
    hl := [HL_NORMAL, HL_NORMAL, HL_NORMAL, HL_NORMAL], hl_open_comment := false }

/-- Witness for C7 at a two-row document whose first row opens a multi-line
comment. -/
theorem C7_witness :
    (0 < ([demoRowOpen, emptyErow] : List erow).length)
    ∧ ((¬((scanRowWith demoRules
            (([demoRowOpen, emptyErow] : List erow).getD 0 emptyErow)).hl_open_comment
          ≠ (([demoRowOpen, emptyErow] : List erow).getD 0 emptyErow).hl_open_comment
          ∧ 0 + 1 < 2) →
        editorUpdateSyntaxAt (some demoRules) 2 [demoRowOpen, emptyErow] 0
          = ([demoRowOpen, emptyErow] : List erow).set 0
              (scanRowWith demoRules
                (([demoRowOpen, emptyErow] : List erow).getD 0 emptyErow)))
      ∧ (((scanRowWith demoRules
            (([demoRowOpen, emptyErow] : List erow).getD 0 emptyErow)).hl_open_comment
          ≠ (([demoRowOpen, emptyErow] : List erow).getD 0 emptyErow).hl_open_comment
          ∧ 0 + 1 < 2) →
        editorUpdateSyntaxAt (some demoRules) 2 [demoRowOpen, emptyErow] 0
          = editorUpdateSyntaxAt (some demoRules) 2
              (([demoRowOpen, emptyErow] : List erow).set 0
                (scanRowWith demoRules
                  (([demoRowOpen, emptyErow] : List erow).getD 0 emptyErow))) (0 + 1))
      ∧ (∀ k, k < 0 →
          (editorUpdateSyntaxAt (some demoRules) 2 [demoRowOpen, emptyErow] 0)[k]?
            = ([demoRowOpen, emptyErow] : List erow)[k]?)) :=
  ⟨by decide, C7_syntax_propagation demoRules 2 [demoRowOpen, emptyErow] 0 (by decide)⟩

/-- `struct EditorSnapshot` (src/wee.c:92): deep copy of document, cursor and
selection.  `numrows` is `rows.length`; the `prev`/`next` links are the
adjacency of the `UndoSystem` chain list below. -/
structure EditorSnapshot where
  rows : List erow
  cx : Int
  cy : Int
  rowoff : Int
  coloff : Int
  selection_active : Bool
  selection_start_cx : Int
  selection_start_cy : Int
  selection_end_cx : Int
  selection_end_cy : Int
  timestamp : Int
  description : String
deriving Repr, DecidableEq

def emptySnapshot : EditorSnapshot :=
  { rows := [], cx := 0, cy := 0, rowoff := 0, coloff := 0
    selection_active := false, selection_start_cx := 0, selection_start_cy := 0
    selection_end_cx := 0, selection_end_cy := 0, timestamp := 0, description := "" }

/-- `struct UndoSystem` (src/wee.c:116).  The doubly-linked snapshot list from
`head` is the list `chain`; the `current` pointer is an index into it
(`none` exactly when the chain is empty, as maintained by the source). -/
structure UndoSystem where
  chain : List EditorSnapshot
  current : Option Nat
  max_snapshots : Int
  current_count : Int
  last_snapshot_time : Int
deriving Repr, DecidableEq

/-- `struct editorConfig E` (src/wee.c:124), restricted to the editing engine:
screen geometry, filename and terminal state are display/I-O only.
`numrows` is `rows.length`; `clipboard == NULL` is `none` and
`clipboard_len` is the list length; `E.syntax` is `synRules` (`syntax` is
reserved in Lean). -/
structure EditorConfig where
  cx : Int
  cy : Int
  rowoff : Int
  coloff : Int
  rows : List erow
  dirty : Int
  clipboard : Option (List Char)
  synRules : Option EditorSyntaxRules
  selection_start_cx : Int
  selection_start_cy : Int
  selection_end_cx : Int
  selection_end_cy : Int
  selection_active : Bool
  mode : Nat
  undo_system : UndoSystem
  statusmsg : String
deriving Repr, DecidableEq

/-- `editorSetStatusMessage` keeps only the format string: the printf-style
numeric interpolation is display-only.  Messages checked by claims carry no
format parameters. -/
def editorSetStatusMessage (st : EditorConfig) (msg : String) : EditorConfig :=
  { st with statusmsg := msg }

/-- `editorUpdateRow(&E.row[i])` (src/wee.c:392) with an explicit `numrows`
for the syntax cascade: rebuild the render buffer, then run
`editorUpdateSyntax`.  `editorInsertRow` calls this before incrementing
`E.numrows`, so the stale count is passed explicitly there. -/
def editorUpdateRowAtN (st : EditorConfig) (numrows : Nat) (i : Int) : EditorConfig :=
  let row := rowGet st.rows i
  let rows1 := rowsSet st.rows i { row with render := renderOfChars row.chars }
  { st with rows := editorUpdateSyntaxAt st.synRules numrows rows1 i.toNat }

/-- `editorUpdateRow` at a call site where `E.numrows` is in sync with the
row store. -/
def editorUpdateRowAt (st : EditorConfig) (i : Int) : EditorConfig :=
  editorUpdateRowAtN st st.rows.length i

/-- `void editorInsertRow(int at, char *s, size_t len)` (src/wee.c:419).
`at` is a Lean keyword, hence `at_`.  Subsequent rows get `idx + 1`; the new
row starts with empty render/hl and `hl_open_comment = 0` and is then
updated (with the not-yet-incremented `E.numrows`). -/
def editorInsertRow (st : EditorConfig) (at_ : Int) (s : List Char) : EditorConfig :=
  if at_ < 0 ∨ at_ > (st.rows.length : Int) then st
  else
    let newRow : erow :=
      { idx := at_, chars := s, render := [], hl := [], hl_open_comment := false }
    let rows1 := st.rows.take at_.toNat ++ [newRow]
      ++ (st.rows.drop at_.toNat).map (fun r => { r with idx := r.idx + 1 })
    let st1 := editorUpdateRowAtN { st with rows := rows1 } st.rows.length at_
    { st1 with dirty := st1.dirty + 1 }

/-- `void editorDelRow(int at)` (src/wee.c:457).  The `deleted_text` buffer
built there is never used afterwards.  Subsequent rows get `idx - 1`. -/
def editorDelRow (st : EditorConfig) (at_ : Int) : EditorConfig :=
  if at_ < 0 ∨ at_ ≥ (st.rows.length : Int) then st
  else
    { st with
      rows := st.rows.take at_.toNat
        ++ (st.rows.drop (at_.toNat + 1)).map (fun r => { r with idx := r.idx - 1 })
      dirty := st.dirty + 1 }

/-- `void editorRowInsertChar(erow *row, int at, int c)` (src/wee.c:479); the
row is addressed by its position `i`. -/
def editorRowInsertChar (st : EditorConfig) (i : Int) (at_ : Int) (c : Char) :
    EditorConfig :=
  let row := rowGet st.rows i
  let a := if at_ < 0 ∨ at_ > (row.chars.length : Int) then (row.chars.length : Int)
           else at_
  let rows1 := rowsSet st.rows i
    { row with chars := row.chars.take a.toNat ++ [c] ++ row.chars.drop a.toNat }
  let st1 := editorUpdateRowAt { st with rows := rows1 } i
  { st1 with dirty := st1.dirty + 1 }

/-- `void editorRowAppendString(erow *row, char *s, size_t len)`
(src/wee.c:495). -/
def editorRowAppendString (st : EditorConfig) (i : Int) (s : List Char) :
    EditorConfig :=
  let row := rowGet st.rows i
  let rows1 := rowsSet st.rows i { row with chars := row.chars ++ s }
  let st1 := editorUpdateRowAt { st with rows := rows1 } i
  { st1 with dirty := st1.dirty + 1 }

/-- `void editorRowDelChar(erow *row, int at)` (src/wee.c:509). -/
def editorRowDelChar (st : EditorConfig) (i : Int) (at_ : Int) : EditorConfig :=
  let row := rowGet st.rows i
  if at_ < 0 ∨ at_ ≥ (row.chars.length : Int) then st
  else
    let rows1 := rowsSet st.rows i { row with chars := row.chars.eraseIdx at_.toNat }
    let st1 := editorUpdateRowAt { st with rows := rows1 } i
    { st1 with dirty := st1.dirty + 1 }

/-- The auto-close table of `editorInsertChar` (src/wee.c:530-536). -/
def closingCharOf (c : Char) : Option Char :=
  if c = '(' then some ')'
  else if c = '[' then some ']'
  else if c = '\x7b' then some '\x7d'
  else if c = '"' then some '"'
  else if c = '\'' then some '\''
  else none

/-- `void editorInsertChar(int c)` (src/wee.c:523): insert at the cursor,
advance the cursor, and also insert the matching closing character (without
advancing) when `c` is an opener. -/
def editorInsertChar (st : EditorConfig) (c : Char) : EditorConfig :=
  let st1 := if st.cy = (st.rows.length : Int)
             then editorInsertRow st (st.rows.length : Int) [] else st
  let st2 := editorRowInsertChar st1 st1.cy st1.cx c
  let st3 := { st2 with cx := st2.cx + 1 }
  match closingCharOf c with
  | some cc => editorRowInsertChar st3 st3.cy st3.cx cc
  | none => st3

/-- The auto-indent loop at the end of `editorInsertNewline`
(src/wee.c:568-574): insert `n` more spaces into the row at the cursor,
at positions `i, i+1, ...`, advancing `E.cx` each time. -/
def insertIndentLoop (st : EditorConfig) : Nat → Nat → EditorConfig
  | 0, _ => st
  | n + 1, i =>
    let st1 := editorRowInsertChar st st.cy (i : Int) ' '
    insertIndentLoop { st1 with cx := st1.cx + 1 } n (i + 1)

/-- `void editorInsertNewline()` (src/wee.c:546): split the current row at the
cursor and reproduce the current row's leading spaces on the new line. -/
def editorInsertNewline (st : EditorConfig) : EditorConfig :=
  let prev_indent : Nat :=
    if st.cy < (st.rows.length : Int) then
      ((rowGet st.rows st.cy).chars.takeWhile (fun c => c = ' ')).length
    else 0
  let st1 :=
    if st.cx = 0 then
      editorInsertRow st st.cy []
    else
      let row := rowGet st.rows st.cy
      let stA := editorInsertRow st (st.cy + 1) (row.chars.drop st.cx.toNat)
      -- row = &E.row[E.cy]; row->size = E.cx; editorUpdateRow(row);
      let row2 := rowGet stA.rows st.cy
      let stB := { stA with
        rows := rowsSet stA.rows st.cy { row2 with chars := row2.chars.take st.cx.toNat } }
      editorUpdateRowAt stB st.cy
  let st2 := { st1 with cy := st1.cy + 1, cx := 0 }
  if st2.cy < (st2.rows.length : Int) ∧ 0 < prev_indent then
    insertIndentLoop st2 prev_indent 0
  else st2

/-- `void editorDelChar()` (src/wee.c:691): backspace; at column 0 it joins
the current row onto the previous one. -/
def editorDelChar (st : EditorConfig) : EditorConfig :=
  if st.cy = (st.rows.length : Int) then st
  else if st.cx = 0 ∧ st.cy = 0 then st
  else if 0 < st.cx then
    let st1 := editorRowDelChar st st.cy (st.cx - 1)
    { st1 with cx := st1.cx - 1 }
  else
    let st1 := { st with cx := ((rowGet st.rows (st.cy - 1)).chars.length : Int) }
    let st2 := editorRowAppendString st1 (st1.cy - 1) (rowGet st1.rows st1.cy).chars
    let st3 := editorDelRow st2 st2.cy
    { st3 with cy := st3.cy - 1 }

/-- The selection-normalization swap used (inline) by the selection
operations: order the two stored points by `(row, column)`, returning
`(start_cx, start_cy, end_cx, end_cy)`. -/
def normSel (scx scy ecx ecy : Int) : Int × Int × Int × Int :=
  if scy > ecy ∨ (scy = ecy ∧ scx > ecx) then (ecx, ecy, scx, scy)
  else (scx, scy, ecx, ecy)

/-- The loop body recursion of `for (int i = end_cy; i > start_cy; i--)
editorDelRow(i);` with explicit fuel. -/
def delRowsGo (stop : Int) : Nat → EditorConfig → Int → EditorConfig
  | 0, st, _ => st
  | fuel + 1, st, i =>
    if i > stop then delRowsGo stop fuel (editorDelRow st i) (i - 1) else st

/-- `for (int i = end_cy; i > start_cy; i--) editorDelRow(i);`
(src/wee.c:672-675).  The fuel `(i - stop).toNat` is exact: it is 0 exactly
when the loop guard `i > stop` already fails. -/
def delRowsLoop (st : EditorConfig) (i stop : Int) : EditorConfig :=
  delRowsGo stop (i - stop).toNat st i

/-- `void editorDelCharSelection()` (src/wee.c:621): normalize, capture the
suffix of the last row from the range end, truncate the first row at the
range start, delete the rows strictly inside / below the range, re-append the
suffix, and leave the cursor at the range start with the selection inactive.
The `deleted_text` string built via `editorGetSelection` is freed unused, and
only the final of the several status messages survives. -/
def editorDelCharSelection (st : EditorConfig) : EditorConfig :=
  if ¬st.selection_active then
    editorSetStatusMessage st "editorDelCharSelection: Selection not active."
  else
    let q := normSel st.selection_start_cx st.selection_start_cy
      st.selection_end_cx st.selection_end_cy
    let start_cx := q.1
    let start_cy := q.2.1
    let end_cx := q.2.2.1
    let end_cy := q.2.2.2
    if start_cy = end_cy ∧ start_cx = end_cx then
      editorSetStatusMessage { st with selection_active := false }
        "editorDelCharSelection: Empty selection."
    else
      let suffix_of_end_row : List Char :=
        if end_cx < ((rowGet st.rows end_cy).chars.length : Int) then
          (rowGet st.rows end_cy).chars.drop end_cx.toNat
        else []
      let srow := rowGet st.rows start_cy
      let truncated : erow := { srow with chars := srow.chars.take start_cx.toNat }
      let st1 := editorUpdateRowAt
        { st with rows := rowsSet st.rows start_cy truncated } start_cy
      let st2 := delRowsLoop st1 end_cy start_cy
      let st3 := if 0 < suffix_of_end_row.length then
        editorRowAppendString st2 start_cy suffix_of_end_row else st2
      { st3 with
        cx := start_cx
        cy := start_cy
        selection_active := false
        dirty := st3.dirty + 1
        statusmsg := "editorDelCharSelection: Done." }

/-- One clipboard character of the `editorPaste` loop (src/wee.c:1032-1052):
a newline splits the current row exactly as `editorInsertNewline`'s core
(without auto-indent); any other character is inserted at the cursor. -/
def pasteChar (st : EditorConfig) (c : Char) : EditorConfig :=
  if c = '\n' then
    let st1 :=
      if st.cx = 0 then editorInsertRow st st.cy []
      else
        let row := rowGet st.rows st.cy
        let stA := editorInsertRow st (st.cy + 1) (row.chars.drop st.cx.toNat)
        let row2 := rowGet stA.rows st.cy
        let stB := { stA with
          rows := rowsSet stA.rows st.cy { row2 with chars := row2.chars.take st.cx.toNat } }
        editorUpdateRowAt stB st.cy
    { st1 with cy := st1.cy + 1, cx := 0 }
  else
    let st1 := if st.cy = (st.rows.length : Int)
               then editorInsertRow st (st.rows.length : Int) [] else st
    let st2 := editorRowInsertChar st1 st1.cy st1.cx c
    { st2 with cx := st2.cx + 1 }

/-- `void editorPaste()` (src/wee.c:1020): a `NULL` clipboard returns at once;
otherwise an active selection is deleted first, the clipboard is inserted
character by character, and the pasted span becomes the active selection. -/
def editorPaste (st : EditorConfig) : EditorConfig :=
  match st.clipboard with
  | none => st
  | some clip =>
    let st0 := if st.selection_active then editorDelCharSelection st else st
    let paste_start_cx := st0.cx
    let paste_start_cy := st0.cy
    let st1 := clip.foldl pasteChar st0
    { st1 with
      selection_start_cx := paste_start_cx, selection_start_cy := paste_start_cy
      selection_end_cx := st1.cx, selection_end_cy := st1.cy
      selection_active := true, mode := SELECTION_MODE
      statusmsg := "Pasted and selected." }

/-- `row->chars[i]` for an `int` index (reads at every call site are in
bounds; NUL is the out-of-range default). -/
def charAtD (l : List Char) (i : Int) : Char :=
  l.getD i.toNat '\x00'

/-- The integer range `[lo, hi]` of the C `for (int i = lo; i <= hi; i++)`
loops over selection rows. -/
def intRange (lo hi : Int) : List Int :=
  (List.range (hi + 1 - lo).toNat).map (fun k => lo + (k : Int))

/-- `int editorCanMoveSelectionLeft()` (src/wee.c:2262): every touched row
must have a removable space immediately before its part of the selection. -/
def editorCanMoveSelectionLeft (st : EditorConfig) : Bool :=
  if ¬st.selection_active then false
  else
    let q := normSel st.selection_start_cx st.selection_start_cy
      st.selection_end_cx st.selection_end_cy
    let start_cx := q.1
    let start_cy := q.2.1
    let end_cy := q.2.2.2
    if start_cy = end_cy then
      decide (0 < start_cx ∧ charAtD (rowGet st.rows start_cy).chars (start_cx - 1) = ' ')
    else
      (intRange start_cy end_cy).all (fun i =>
        if i = start_cy then
          decide (0 < start_cx ∧ charAtD (rowGet st.rows i).chars (start_cx - 1) = ' ')
        else
          decide (0 < (rowGet st.rows i).chars.length
            ∧ charAtD (rowGet st.rows i).chars 0 = ' '))

/-- `void editorMoveSelectionLeft()` (src/wee.c:2153): remove one space
before each touched row's part of the selection when present, updating the
raw stored selection columns as the source does. -/
def editorMoveSelectionLeft (st : EditorConfig) : EditorConfig :=
  if ¬st.selection_active then st
  else
    let q := normSel st.selection_start_cx st.selection_start_cy
      st.selection_end_cx st.selection_end_cy
    let start_cx := q.1
    let start_cy := q.2.1
    let end_cy := q.2.2.2
    let st1 :=
      if start_cy = end_cy then
        if 0 < start_cx ∧ charAtD (rowGet st.rows start_cy).chars (start_cx - 1) = ' ' then
          let stA := editorRowDelChar st start_cy (start_cx - 1)
          { stA with selection_start_cx := stA.selection_start_cx - 1
                     selection_end_cx := stA.selection_end_cx - 1 }
        else st
      else
        (intRange start_cy end_cy).foldl (fun stAcc i =>
          if i = start_cy then
            if 0 < start_cx ∧ charAtD (rowGet stAcc.rows i).chars (start_cx - 1) = ' ' then
              let stA := editorRowDelChar stAcc i (start_cx - 1)
              { stA with selection_start_cx := stA.selection_start_cx - 1 }
            else stAcc
          else
            if 0 < (rowGet stAcc.rows i).chars.length
                ∧ charAtD (rowGet stAcc.rows i).chars 0 = ' ' then
              let stA := editorRowDelChar stAcc i 0
              if i = end_cy then
                let e := stA.selection_end_cx - 1
                { stA with selection_end_cx := if e < 0 then 0 else e }
              else stA
            else stAcc) st
    { st1 with dirty := st1.dirty + 1 }

/-- `int editorCanMoveSelectionRight()` (src/wee.c:2310). -/
def editorCanMoveSelectionRight (st : EditorConfig) : Bool :=
  st.selection_active

/-- `void editorMoveSelectionRight()` (src/wee.c:2208): insert one space
before each touched row's part of the selection. -/
def editorMoveSelectionRight (st : EditorConfig) : EditorConfig :=
  if ¬st.selection_active then st
  else
    let q := normSel st.selection_start_cx st.selection_start_cy
      st.selection_end_cx st.selection_end_cy
    let start_cx := q.1
    let start_cy := q.2.1
    let end_cy := q.2.2.2
    let st1 :=
      if start_cy = end_cy then
        let stA := editorRowInsertChar st start_cy start_cx ' '
        { stA with selection_start_cx := stA.selection_start_cx + 1
                   selection_end_cx := stA.selection_end_cx + 1 }
      else
        (intRange start_cy end_cy).foldl (fun stAcc i =>
          if i = start_cy then
            let stA := editorRowInsertChar stAcc i start_cx ' '
            { stA with selection_start_cx := stA.selection_start_cx + 1 }
          else if i = end_cy then
            let stA := editorRowInsertChar stAcc i 0 ' '
            { stA with selection_end_cx := stA.selection_end_cx + 1 }
          else editorRowInsertChar stAcc i 0 ' ') st
    { st1 with dirty := st1.dirty + 1 }

/-- `int editorIsSelectionFullLines()` (src/wee.c:2319): the normalized
selection must start at column 0 of its first row and end at the last row's
length (one whole row in the single-row case). -/
def editorIsSelectionFullLines (st : EditorConfig) : Bool :=
  if ¬st.selection_active then false
  else
    let q := normSel st.selection_start_cx st.selection_start_cy
      st.selection_end_cx st.selection_end_cy
    let start_cx := q.1
    let start_cy := q.2.1
    let end_cx := q.2.2.1
    let end_cy := q.2.2.2
    if start_cy = end_cy then
      decide (start_cx = 0 ∧ end_cx = ((rowGet st.rows start_cy).chars.length : Int))
    else if start_cx ≠ 0 then false
    else if end_cx ≠ ((rowGet st.rows end_cy).chars.length : Int) then false
    else true

/-- `int editorCanMoveSelectionVertical()` (src/wee.c:2358). -/
def editorCanMoveSelectionVertical (st : EditorConfig) : Bool :=
  editorIsSelectionFullLines st

/-- The block-copy loop `for (i) E.row[pos + i] = temp[i]` of the vertical
moves. -/
def writeBlock : List erow → Nat → List erow → List erow
  | rows, _, [] => rows
  | rows, pos, r :: rest => writeBlock (rows.set pos r) (pos + 1) rest

/-- The loop body recursion of the reindex-and-update loops with explicit
fuel. -/
def reindexGo (hi : Int) : Nat → EditorConfig → Int → EditorConfig
  | 0, st, _ => st
  | fuel + 1, st, lo =>
    if lo > hi then st
    else
      let row := rowGet st.rows lo
      let st1 := editorUpdateRowAt
        { st with rows := rowsSet st.rows lo { row with idx := lo } } lo
      reindexGo hi fuel st1 (lo + 1)

/-- `for (int i = lo; i <= hi; i++) { E.row[i].idx = i; editorUpdateRow(&E.row[i]); }`
(src/wee.c:2429-2432 and 2492-2495).  The fuel `(hi + 1 - lo).toNat` is 0
exactly when the loop guard `lo <= hi` already fails. -/
def reindexUpdateRange (st : EditorConfig) (lo hi : Int) : EditorConfig :=
  reindexGo hi (hi + 1 - lo).toNat st lo

/-- `void editorMoveSelection(int key)` (src/wee.c:2362): the four-way switch;
the vertical branches require a full-line selection and swap the selected
block with the adjacent row. -/
def editorMoveSelection (st : EditorConfig) (key : Nat) : EditorConfig :=
  if key = ARROW_LEFT then
    if ¬editorCanMoveSelectionLeft st then
      editorSetStatusMessage st "Cannot move selection left - not enough spaces"
    else
      editorSetStatusMessage (editorMoveSelectionLeft st) "Selection moved left"
  else if key = ARROW_RIGHT then
    if ¬editorCanMoveSelectionRight st then
      editorSetStatusMessage st "Cannot move selection right"
    else
      editorSetStatusMessage (editorMoveSelectionRight st) "Selection moved right"
  else if key = ARROW_UP then
    if ¬editorCanMoveSelectionVertical st then
      editorSetStatusMessage st "Cannot move selection up - selection must be full lines"
    else
      let norm_start_cy := if st.selection_start_cy > st.selection_end_cy
        then st.selection_end_cy else st.selection_start_cy
      let norm_end_cy := if st.selection_start_cy > st.selection_end_cy
        then st.selection_start_cy else st.selection_end_cy
      if norm_start_cy = 0 then
        editorSetStatusMessage st "Cannot move selection up - already at top"
      else if norm_end_cy ≥ (st.rows.length : Int) ∨ norm_start_cy < 0 then st
      else
        let sel_height := (norm_end_cy - norm_start_cy + 1).toNat
        let temp := (st.rows.drop norm_start_cy.toNat).take sel_height
        -- E.row[norm_end_cy] = E.row[norm_start_cy - 1];
        let rows1 := rowsSet st.rows norm_end_cy (rowGet st.rows (norm_start_cy - 1))
        -- for (i) E.row[norm_start_cy - 1 + i] = temp[i];
        let rows2 := writeBlock rows1 (norm_start_cy - 1).toNat temp
        let st1 := reindexUpdateRange { st with rows := rows2 }
          (norm_start_cy - 1) norm_end_cy
        let st2 := { st1 with
          selection_start_cy := st1.selection_start_cy - 1
          selection_end_cy := st1.selection_end_cy - 1 }
        let st3 := if 0 < st2.cy then { st2 with cy := st2.cy - 1 } else st2
        editorSetStatusMessage { st3 with dirty := st3.dirty + 1 } "Selection moved up"
  else if key = ARROW_DOWN then
    if ¬editorCanMoveSelectionVertical st then
      editorSetStatusMessage st "Cannot move selection down - selection must be full lines"
    else
      let norm_start_cy := if st.selection_start_cy > st.selection_end_cy
        then st.selection_end_cy else st.selection_start_cy
      let norm_end_cy := if st.selection_start_cy > st.selection_end_cy
        then st.selection_start_cy else st.selection_end_cy
      if norm_end_cy ≥ (st.rows.length : Int) - 1 then
        editorSetStatusMessage st "Cannot move selection down - already at bottom"
      else if norm_start_cy < 0 ∨ norm_end_cy + 1 ≥ (st.rows.length : Int) then st
      else
        let sel_height := (norm_end_cy - norm_start_cy + 1).toNat
        let temp := (st.rows.drop norm_start_cy.toNat).take sel_height
        -- E.row[norm_start_cy] = E.row[norm_end_cy + 1];
        let rows1 := rowsSet st.rows norm_start_cy (rowGet st.rows (norm_end_cy + 1))
        -- for (i) E.row[norm_start_cy + 1 + i] = temp[i];
        let rows2 := writeBlock rows1 (norm_start_cy + 1).toNat temp
        let st1 := reindexUpdateRange { st with rows := rows2 }
          norm_start_cy (norm_end_cy + 1)
        let st2 := { st1 with
          selection_start_cy := st1.selection_start_cy + 1
          selection_end_cy := st1.selection_end_cy + 1 }
        let st3 := if st2.cy < (st2.rows.length : Int) - 1
          then { st2 with cy := st2.cy + 1 } else st2
        editorSetStatusMessage { st3 with dirty := st3.dirty + 1 } "Selection moved down"
  else st

/-- `editorCopyCurrentState` (src/wee.c:2559): deep copy of the live state
into a snapshot; `time(NULL)` is the explicit `now` argument. -/
def editorCopyCurrentState (st : EditorConfig) (description : String) (now : Int) :
    EditorSnapshot :=
  { rows := st.rows
    cx := st.cx, cy := st.cy, rowoff := st.rowoff, coloff := st.coloff
    selection_active := st.selection_active
    selection_start_cx := st.selection_start_cx
    selection_start_cy := st.selection_start_cy
    selection_end_cx := st.selection_end_cx
    selection_end_cy := st.selection_end_cy
    timestamp := now, description := description }

/-- `void editorRestoreSnapshot(struct EditorSnapshot *snap)`
(src/wee.c:2615): replace document, cursor and selection with deep copies
from the snapshot. -/
def editorRestoreSnapshot (st : EditorConfig) (snap : EditorSnapshot) :
    EditorConfig :=
  { st with
    rows := snap.rows
    cx := snap.cx, cy := snap.cy, rowoff := snap.rowoff, coloff := snap.coloff
    selection_active := snap.selection_active
    selection_start_cx := snap.selection_start_cx
    selection_start_cy := snap.selection_start_cy
    selection_end_cx := snap.selection_end_cx
    selection_end_cy := snap.selection_end_cy
    dirty := st.dirty + 1 }

/-- `void editorCreateSnapshot(const char *description)` (src/wee.c:2654):
debounce snapshots taken within one second of the previous one; otherwise
prune everything after `current` (the redo branch), append the new snapshot
as the new `current` tail, and evict the oldest snapshot when over
capacity. -/
def editorCreateSnapshot (st : EditorConfig) (description : String) (now : Int) :
    EditorConfig :=
  if now - st.undo_system.last_snapshot_time < 1 ∧ st.undo_system.current.isSome then
    st
  else
    let snap := editorCopyCurrentState st description now
    let us := st.undo_system
    let afterLink : List EditorSnapshot × Nat × Int :=
      match us.current with
      | some i =>
        -- free every snapshot after `current`, decrementing the count
        let kept := us.chain.take (i + 1)
        (kept ++ [snap], kept.length,
          us.current_count - ((us.chain.length : Int) - (kept.length : Int)) + 1)
      | none => ([snap], 0, us.current_count + 1)
    let chain1 := afterLink.1
    let cur1 := afterLink.2.1
    let count1 := afterLink.2.2
    if count1 > us.max_snapshots then
      { st with undo_system := { us with
          chain := chain1.drop 1, current := some (cur1 - 1)
          current_count := count1 - 1, last_snapshot_time := now } }
    else
      { st with undo_system := { us with
          chain := chain1, current := some cur1
          current_count := count1, last_snapshot_time := now } }

/-- `void editorClearUndoSystem()` (src/wee.c:2702). -/
def editorClearUndoSystem (st : EditorConfig) : EditorConfig :=
  { st with undo_system :=
      { chain := [], current := none,
        max_snapshots := st.undo_system.max_snapshots,
        current_count := 0, last_snapshot_time := 0 } }

/-- `void editorUndo()` (src/wee.c:2719): without a predecessor of `current`
report "Nothing to undo"; otherwise move `current` back one snapshot and
restore from it. -/
def editorUndo (st : EditorConfig) : EditorConfig :=
  match st.undo_system.current with
  | none => editorSetStatusMessage st "Nothing to undo"
  | some i =>
    if i = 0 then editorSetStatusMessage st "Nothing to undo"
    else
      let snap := st.undo_system.chain.getD (i - 1) emptySnapshot
      let st1 := { st with undo_system := { st.undo_system with current := some (i - 1) } }
      editorSetStatusMessage (editorRestoreSnapshot st1 snap)
        ("Undo: " ++ snap.description)

/-- `void editorRedo()` (src/wee.c:2733): without a successor of `current`
report "Nothing to redo"; otherwise move `current` forward one snapshot and
restore from it. -/
def editorRedo (st : EditorConfig) : EditorConfig :=
  match st.undo_system.current with
  | none => editorSetStatusMessage st "Nothing to redo"
  | some i =>
    if i + 1 < st.undo_system.chain.length then
      let snap := st.undo_system.chain.getD (i + 1) emptySnapshot
      let st1 := { st with undo_system := { st.undo_system with current := some (i + 1) } }
      editorSetStatusMessage (editorRestoreSnapshot st1 snap)
        ("Redo: " ++ snap.description)
    else editorSetStatusMessage st "Nothing to redo"

/-- The `DEL_KEY` action in `SELECTION_MODE` (src/wee.c:1863-1868): snapshot,
delete the selection, drop back to normal mode. -/
def deleteSelectionAction (st : EditorConfig) (now : Int) : EditorConfig :=
  let st1 := editorCreateSnapshot st "Delete selection" now
  let st2 := editorDelCharSelection st1
  editorSetStatusMessage { st2 with mode := NORMAL_MODE } "Selection deleted."

/-! Projection infrastructure: the render/highlight machinery never changes a
row's raw content or its index, so most claims are settled at the level of
the `(chars, idx)` projection of the row store. -/

/-- The `(chars, idx)` projection of a row. -/
def ci (r : erow) : List Char × Int := (r.chars, r.idx)

/-- The `(chars, idx)` projection of a row store. -/
def ciOf (rows : List erow) : List (List Char × Int) := rows.map ci

lemma length_ciOf (rows : List erow) : (ciOf rows).length = rows.length := by
  simp [ciOf]

lemma set_getD_self {α : Type} (l : List α) (i : Nat) (d : α) (h : i < l.length) :
    l.set i (l.getD i d) = l := by
  apply List.ext_getElem?
  intro n
  rw [List.getElem?_set]
  by_cases hin : i = n
  · subst hin
    rw [if_pos rfl, if_pos h, List.getD_eq_getElem?_getD,
      List.getElem?_eq_getElem h]
    rfl
  · rw [if_neg hin]

/-- Setting a row to one with the same `(chars, idx)` projection leaves the
projection of the store unchanged. -/
lemma ciOf_set_same (rows : List erow) (i : Nat) (r' : erow)
    (h : ci r' = ci (rows.getD i emptyErow)) :
    ciOf (rows.set i r') = ciOf rows := by
  by_cases hi : i < rows.length
  · unfold ciOf
    rw [List.map_set, h]
    have : ci (rows.getD i emptyErow) = (rows.map ci).getD i (ci emptyErow) := by
      rw [List.getD_eq_getElem?_getD, List.getD_eq_getElem?_getD,
        List.getElem?_map, List.getElem?_eq_getElem hi]
      rfl
    rw [this]
    exact set_getD_self _ i _ (by simpa using hi)
  · rw [List.set_eq_of_length_le (by omega)]

lemma ci_scanRowWith (p : EditorSyntaxRules) (r : erow) :
    ci (scanRowWith p r) = ci r := rfl

lemma ciOf_cascadeGo (p : EditorSyntaxRules) (numrows : Nat) :
    ∀ (fuel : Nat) (rows : List erow) (i : Nat),
      ciOf (updateSyntaxCascadeGo p numrows fuel rows i) = ciOf rows := by
  intro fuel
  induction fuel with
  | zero => intro rows i; rfl
  | succ fuel ih =>
    intro rows i
    unfold updateSyntaxCascadeGo
    by_cases h : i < rows.length
    · rw [if_pos h]
      by_cases hg : (scanRowWith p (rows.getD i emptyErow)).hl_open_comment
          ≠ (rows.getD i emptyErow).hl_open_comment ∧ i + 1 < numrows
      · rw [if_pos hg, ih]
        exact ciOf_set_same _ _ _ (ci_scanRowWith _ _)
      · rw [if_neg hg]
        exact ciOf_set_same _ _ _ (ci_scanRowWith _ _)
    · rw [if_neg h]

lemma ciOf_updateSyntaxAt (sp : Option EditorSyntaxRules) (numrows : Nat)
    (rows : List erow) (i : Nat) :
    ciOf (editorUpdateSyntaxAt sp numrows rows i) = ciOf rows := by
  cases sp with
  | none =>
    unfold editorUpdateSyntaxAt
    by_cases h : i < rows.length
    · rw [if_pos h]
      exact ciOf_set_same _ _ _ rfl
    · rw [if_neg h]
  | some p => exact ciOf_cascadeGo p numrows _ rows i

lemma ciOf_updateRowAtN (st : EditorConfig) (numrows : Nat) (i : Int) :
    ciOf (editorUpdateRowAtN st numrows i).rows = ciOf st.rows := by
  unfold editorUpdateRowAtN
  rw [ciOf_updateSyntaxAt]
  exact ciOf_set_same _ _ _ rfl

lemma length_updateRowAtN (st : EditorConfig) (numrows : Nat) (i : Int) :
    (editorUpdateRowAtN st numrows i).rows.length = st.rows.length := by
  have := congrArg List.length (ciOf_updateRowAtN st numrows i)
  simpa [length_ciOf] using this

lemma updateRowAtN_fields (st : EditorConfig) (numrows : Nat) (i : Int) :
    (editorUpdateRowAtN st numrows i).cx = st.cx
    ∧ (editorUpdateRowAtN st numrows i).cy = st.cy
    ∧ (editorUpdateRowAtN st numrows i).dirty = st.dirty
    ∧ (editorUpdateRowAtN st numrows i).selection_start_cx = st.selection_start_cx
    ∧ (editorUpdateRowAtN st numrows i).selection_start_cy = st.selection_start_cy
    ∧ (editorUpdateRowAtN st numrows i).selection_end_cx = st.selection_end_cx
    ∧ (editorUpdateRowAtN st numrows i).selection_end_cy = st.selection_end_cy
    ∧ (editorUpdateRowAtN st numrows i).selection_active = st.selection_active
    ∧ (editorUpdateRowAtN st numrows i).mode = st.mode
    ∧ (editorUpdateRowAtN st numrows i).clipboard = st.clipboard
    ∧ (editorUpdateRowAtN st numrows i).synRules = st.synRules
    ∧ (editorUpdateRowAtN st numrows i).undo_system = st.undo_system
    ∧ (editorUpdateRowAtN st numrows i).statusmsg = st.statusmsg :=
  ⟨rfl, rfl, rfl, rfl, rfl, rfl, rfl, rfl, rfl, rfl, rfl, rfl, rfl⟩

/-! Concrete states used by witnesses and counterexamples. -/

/-- A row as built by `editorInsertRow` + `editorUpdateRow` with no syntax
profile loaded. -/
def mkRow (i : Int) (s : String) : erow :=
  { idx := i
    chars := s.toList
    render := renderOfChars s.toList
    hl := List.replicate (renderOfChars s.toList).length HL_NORMAL
    hl_open_comment := false }

/-- The editor state after `initEditor` (src/wee.c:3295): empty document, no
clipboard, no syntax profile, inactive selection with `-1` coordinates, empty
undo history with capacity 50. -/
def baseState : EditorConfig :=
  { cx := 0
    cy := 0
    rowoff := 0
    coloff := 0
    rows := []
    dirty := 0
    clipboard := none
    synRules := none
    selection_start_cx := -1
    selection_start_cy := -1
    selection_end_cx := -1
    selection_end_cy := -1
    selection_active := false
    mode := NORMAL_MODE
    undo_system := { chain := [], current := none, max_snapshots := 50,
                     current_count := 0, last_snapshot_time := 0 }
    statusmsg := "" }

/-- The spec's example state: rows `["abc", "def"]`, freshly opened (empty
history), with the range (row 0, col 1)–(row 1, col 2) selected. -/
def stDemoSel : EditorConfig :=
  { baseState with
    rows := [mkRow 0 "abc", mkRow 1 "def"]
    selection_start_cx := 1
    selection_start_cy := 0
    selection_end_cx := 2
    selection_end_cy := 1
    selection_active := true
    mode := SELECTION_MODE }

/-- A single-row document `"ab"` with the cursor at (0, 1). -/
def stRowAb : EditorConfig :=
  { baseState with rows := [mkRow 0 "ab"], cx := 1, cy := 0 }

/-- A row with one leading space, cursor at (0, 1). -/
def stIndented : EditorConfig :=
  { baseState with rows := [mkRow 0 " a"], cx := 1, cy := 0 }

/-- A row with no leading space, cursor at (0, 2). -/
def stUnindented : EditorConfig :=
  { baseState with rows := [mkRow 0 "xy z"], cx := 2, cy := 0 }

/-- Three rows with row 1 selected as a full line. -/
def stFullLine : EditorConfig :=
  { baseState with
    rows := [mkRow 0 "r0", mkRow 1 "r1", mkRow 2 "r2"]
    selection_start_cx := 0
    selection_start_cy := 1
    selection_end_cx := 2
    selection_end_cy := 1
    selection_active := true
    cy := 1 }

lemma rowGet_natCast (rows : List erow) (y : Nat) :
    rowGet rows (y : Int) = rows.getD y emptyErow := by
  simp [rowGet]

lemma rowsSet_natCast (rows : List erow) (y : Nat) (r : erow) :
    rowsSet rows (y : Int) r = rows.set y r := by
  simp [rowsSet]

lemma ciOf_rowsSet (rows : List erow) (i : Int) (r : erow) :
    ciOf (rowsSet rows i r) = (ciOf rows).set i.toNat (ci r) := by
  simp [ciOf, rowsSet, List.map_set]

/-- `editorRowInsertChar` at in-bounds column `a` on row `y`: the row gains
`c` at position `a`; everything outside the row store except `dirty` is
unchanged. -/
lemma rowInsertChar_ciOf (st : EditorConfig) (y a : Nat) (c : Char)
    (ha : a ≤ (st.rows.getD y emptyErow).chars.length) :
    ciOf (editorRowInsertChar st (y : Int) (a : Int) c).rows
      = (ciOf st.rows).set y
          ((st.rows.getD y emptyErow).chars.take a ++ [c]
            ++ (st.rows.getD y emptyErow).chars.drop a,
           (st.rows.getD y emptyErow).idx) := by
  unfold editorRowInsertChar editorUpdateRowAt
  dsimp only
  simp only [rowGet_natCast]
  rw [if_neg (show ¬((a : Int) < 0
      ∨ (a : Int) > ((st.rows.getD y emptyErow).chars.length : Int)) by
    omega)]
  rw [ciOf_updateRowAtN, ciOf_rowsSet]
  simp [ci]

lemma rowInsertChar_fields (st : EditorConfig) (i a : Int) (c : Char) :
    (editorRowInsertChar st i a c).cx = st.cx
    ∧ (editorRowInsertChar st i a c).cy = st.cy
    ∧ (editorRowInsertChar st i a c).selection_active = st.selection_active
    ∧ (editorRowInsertChar st i a c).clipboard = st.clipboard
    ∧ (editorRowInsertChar st i a c).synRules = st.synRules
    ∧ (editorRowInsertChar st i a c).undo_system = st.undo_system
    ∧ (editorRowInsertChar st i a c).mode = st.mode :=
  ⟨rfl, rfl, rfl, rfl, rfl, rfl, rfl⟩

/-- `editorRowAppendString` on row `i`: the row's content gains `s` at the
end. -/
lemma rowAppendString_ciOf (st : EditorConfig) (i : Int) (s : List Char) :
    ciOf (editorRowAppendString st i s).rows
      = (ciOf st.rows).set i.toNat
          ((rowGet st.rows i).chars ++ s, (rowGet st.rows i).idx) := by
  unfold editorRowAppendString editorUpdateRowAt
  dsimp only
  rw [ciOf_updateRowAtN, ciOf_rowsSet]
  rfl

lemma rowAppendString_fields (st : EditorConfig) (i : Int) (s : List Char) :
    (editorRowAppendString st i s).cx = st.cx
    ∧ (editorRowAppendString st i s).cy = st.cy
    ∧ (editorRowAppendString st i s).selection_active = st.selection_active
    ∧ (editorRowAppendString st i s).mode = st.mode
    ∧ (editorRowAppendString st i s).undo_system = st.undo_system :=
  ⟨rfl, rfl, rfl, rfl, rfl⟩

/-- `editorRowDelChar` at in-bounds column `a` on row `y`. -/
lemma rowDelChar_ciOf (st : EditorConfig) (y a : Nat)
    (ha : a < (st.rows.getD y emptyErow).chars.length) :
    ciOf (editorRowDelChar st (y : Int) (a : Int)).rows
      = (ciOf st.rows).set y
          ((st.rows.getD y emptyErow).chars.eraseIdx a,
           (st.rows.getD y emptyErow).idx) := by
  unfold editorRowDelChar editorUpdateRowAt
  dsimp only
  simp only [rowGet_natCast]
  rw [if_neg (show ¬((a : Int) < 0
      ∨ (a : Int) ≥ ((st.rows.getD y emptyErow).chars.length : Int)) by
    omega)]
  rw [ciOf_updateRowAtN, ciOf_rowsSet]
  simp [ci]

/-- `editorInsertRow` at in-bounds position `n`: the new row is inserted with
index `n` and every subsequent row's index is incremented. -/
lemma insertRow_ciOf (st : EditorConfig) (n : Nat) (s : List Char)
    (hn : n ≤ st.rows.length) :
    ciOf (editorInsertRow st (n : Int) s).rows
      = (ciOf st.rows).take n ++ [(s, (n : Int))]
        ++ ((ciOf st.rows).drop n).map (fun p => (p.1, p.2 + 1)) := by
  unfold editorInsertRow
  rw [if_neg (show ¬((n : Int) < 0 ∨ (n : Int) > (st.rows.length : Int)) by
    omega)]
  dsimp only
  rw [ciOf_updateRowAtN]
  dsimp only
  simp only [ciOf, List.map_append, List.map_take, List.map_drop, List.map_map,
    Int.toNat_natCast]
  rfl

lemma insertRow_fields (st : EditorConfig) (a : Int) (s : List Char) :
    (editorInsertRow st a s).cx = st.cx
    ∧ (editorInsertRow st a s).cy = st.cy
    ∧ (editorInsertRow st a s).selection_active = st.selection_active
    ∧ (editorInsertRow st a s).mode = st.mode
    ∧ (editorInsertRow st a s).undo_system = st.undo_system
    ∧ (editorInsertRow st a s).clipboard = st.clipboard := by
  unfold editorInsertRow
  by_cases h : a < 0 ∨ a > (st.rows.length : Int)
  · rw [if_pos h]; exact ⟨rfl, rfl, rfl, rfl, rfl, rfl⟩
  · rw [if_neg h]; exact ⟨rfl, rfl, rfl, rfl, rfl, rfl⟩

/-- `editorDelRow` at in-bounds position `n`: the row is removed and every
subsequent row's index is decremented. -/
lemma delRow_ciOf (st : EditorConfig) (n : Nat) (hn : n < st.rows.length) :
    ciOf (editorDelRow st (n : Int)).rows
      = (ciOf st.rows).take n
        ++ ((ciOf st.rows).drop (n + 1)).map (fun p => (p.1, p.2 - 1)) := by
  unfold editorDelRow
  rw [if_neg (by omega)]
  simp only [ciOf, List.map_append, List.map_take, List.map_drop, List.map_map,
    Int.toNat_natCast]
  rfl

lemma delRow_fields (st : EditorConfig) (a : Int) :
    (editorDelRow st a).cx = st.cx
    ∧ (editorDelRow st a).cy = st.cy
    ∧ (editorDelRow st a).selection_active = st.selection_active
    ∧ (editorDelRow st a).mode = st.mode
    ∧ (editorDelRow st a).undo_system = st.undo_system := by
  unfold editorDelRow
  by_cases h : a < 0 ∨ a ≥ (st.rows.length : Int)
  · rw [if_pos h]; exact ⟨rfl, rfl, rfl, rfl, rfl⟩
  · rw [if_neg h]; exact ⟨rfl, rfl, rfl, rfl, rfl⟩

/-- C10: with an empty (never filled) clipboard, `editorPaste` returns before
touching anything: the whole editor state — document, cursor and selection,
including an active selection — is unchanged. -/
theorem C10_paste_empty_clipboard_noop (st : EditorConfig)
    (h : st.clipboard = none) : editorPaste st = st := by
  unfold editorPaste
  rw [h]

/-- Witness for C10 at a state with an active selection and empty
clipboard. -/
theorem C10_witness :
    stDemoSel.clipboard = none ∧ stDemoSel.selection_active = true
    ∧ editorPaste stDemoSel = stDemoSel :=
  ⟨rfl, rfl, C10_paste_empty_clipboard_noop stDemoSel rfl⟩

/-- C4: when a fresh edit actually goes through snapshot capture (it is not
debounced away), the capture prunes every snapshot after `current` and makes
the new snapshot the tail, so the new `current` has no successor and
`redo()` right afterwards is a no-op that reports "Nothing to redo". -/
theorem C4_redo_after_fresh_snapshot (st : EditorConfig) (desc : String)
    (now : Int)
    (hcap : ¬(now - st.undo_system.last_snapshot_time < 1
              ∧ st.undo_system.current.isSome)) :
    (∀ j, (editorCreateSnapshot st desc now).undo_system.current = some j →
        (editorCreateSnapshot st desc now).undo_system.chain.length ≤ j + 1)
    ∧ editorRedo (editorCreateSnapshot st desc now)
        = editorSetStatusMessage (editorCreateSnapshot st desc now)
            "Nothing to redo" := by
  have hstep : ∃ (chain1 : List EditorSnapshot) (cur1 : Nat),
      chain1.length = cur1 + 1
      ∧ ((editorCreateSnapshot st desc now).undo_system.chain = chain1
          ∧ (editorCreateSnapshot st desc now).undo_system.current = some cur1
         ∨ (editorCreateSnapshot st desc now).undo_system.chain = chain1.drop 1
          ∧ (editorCreateSnapshot st desc now).undo_system.current
              = some (cur1 - 1)) := by
    cases hc : st.undo_system.current with
    | none =>
      unfold editorCreateSnapshot
      rw [if_neg hcap]
      dsimp only
      rw [hc]
      dsimp only
      split
      · exact ⟨[editorCopyCurrentState st desc now], 0, by simp, Or.inr ⟨rfl, rfl⟩⟩
      · exact ⟨[editorCopyCurrentState st desc now], 0, by simp, Or.inl ⟨rfl, rfl⟩⟩
    | some i =>
      unfold editorCreateSnapshot
      rw [if_neg hcap]
      dsimp only
      rw [hc]
      dsimp only
      split
      · exact ⟨st.undo_system.chain.take (i + 1) ++ [editorCopyCurrentState st desc now],
          (st.undo_system.chain.take (i + 1)).length, by simp, Or.inr ⟨rfl, rfl⟩⟩
      · exact ⟨st.undo_system.chain.take (i + 1) ++ [editorCopyCurrentState st desc now],
          (st.undo_system.chain.take (i + 1)).length, by simp, Or.inl ⟨rfl, rfl⟩⟩
  obtain ⟨chain1, cur1, hlen, hcase⟩ := hstep
  have hnosucc : ∀ j, (editorCreateSnapshot st desc now).undo_system.current = some j →
      (editorCreateSnapshot st desc now).undo_system.chain.length ≤ j + 1 := by
    intro j hj
    rcases hcase with ⟨hch, hcur⟩ | ⟨hch, hcur⟩ <;>
      (rw [hcur] at hj; injection hj with hj'; subst hj'; rw [hch])
    · omega
    · simp only [List.length_drop]; omega
  refine ⟨hnosucc, ?_⟩
  unfold editorRedo
  rcases hcase with ⟨hch, hcur⟩ | ⟨hch, hcur⟩ <;> rw [hcur] <;> dsimp only <;>
    rw [if_neg (by have := hnosucc _ hcur; omega)]

/-- Witness for C4: a fresh snapshot at `now = 100` on the demo state (empty
history, `last_snapshot_time = 0`), followed by `redo()`. -/
theorem C4_witness :
    ¬((100 : Int) - stDemoSel.undo_system.last_snapshot_time < 1
      ∧ stDemoSel.undo_system.current.isSome)
    ∧ ((∀ j, (editorCreateSnapshot stDemoSel "Typing" 100).undo_system.current = some j →
          (editorCreateSnapshot stDemoSel "Typing" 100).undo_system.chain.length ≤ j + 1)
       ∧ editorRedo (editorCreateSnapshot stDemoSel "Typing" 100)
          = editorSetStatusMessage (editorCreateSnapshot stDemoSel "Typing" 100)
              "Nothing to redo") :=
  ⟨by decide, C4_redo_after_fresh_snapshot stDemoSel "Typing" 100 (by decide)⟩

/-- C1 (code bug, failing input): on the spec's own example — rows
`["abc", "def"]` with (0,1)–(1,2) selected and a fresh (empty) history — the
'delete selection' action captures the pre-delete snapshot and deletes the
range, but a single `undo()` does NOT restore the pre-delete content: the
snapshot taken before the delete became `current`, and `editorUndo` moves to
`current->prev`, which does not exist, so undo reports "Nothing to undo",
leaves the document deleted, and the selection stays inactive.  (With a
non-empty history, undo would instead restore the snapshot before the
pre-delete one — off by one either way.) -/
theorem C1_undo_after_delete_selection_bug :
    stDemoSel.rows.map erow.chars = [['a', 'b', 'c'], ['d', 'e', 'f']]
    ∧ (deleteSelectionAction stDemoSel 100).rows.map erow.chars = [['a', 'f']]
    ∧ (deleteSelectionAction stDemoSel 100).undo_system.chain.map
        (fun s => s.rows.map erow.chars) = [[['a', 'b', 'c'], ['d', 'e', 'f']]]
    ∧ (editorUndo (deleteSelectionAction stDemoSel 100)).rows.map erow.chars
        = [['a', 'f']]
    ∧ (editorUndo (deleteSelectionAction stDemoSel 100)).statusmsg
        = "Nothing to undo"
    ∧ (editorUndo (deleteSelectionAction stDemoSel 100)).selection_active
        = false := by
  decide

lemma map_chars_eq_ciOf (rows : List erow) :
    rows.map erow.chars = (ciOf rows).map Prod.fst := by
  simp only [ciOf, List.map_map]
  rfl

lemma getD_set_self_lt {α : Type} (l : List α) (y : Nat) (a d : α)
    (h : y < l.length) : (l.set y a).getD y d = a := by
  rw [List.getD_eq_getElem?_getD, List.getElem?_set]
  simp [h]

lemma chars_getD (rows : List erow) (y : Nat) :
    (rows.getD y emptyErow).chars = (rows.map erow.chars).getD y [] := by
  rw [List.getD_eq_getElem?_getD, List.getD_eq_getElem?_getD, List.getElem?_map]
  cases rows[y]? <;> rfl

lemma insertRow_charsOf (st : EditorConfig) (n : Nat) (s : List Char)
    (hn : n ≤ st.rows.length) :
    (editorInsertRow st (n : Int) s).rows.map erow.chars
      = (st.rows.map erow.chars).take n ++ [s]
        ++ (st.rows.map erow.chars).drop n := by
  rw [map_chars_eq_ciOf, insertRow_ciOf st n s hn]
  simp only [List.map_append, List.map_take, List.map_drop, List.map_map]
  rw [map_chars_eq_ciOf]
  rfl

lemma delRow_charsOf (st : EditorConfig) (n : Nat) (hn : n < st.rows.length) :
    (editorDelRow st (n : Int)).rows.map erow.chars
      = (st.rows.map erow.chars).take n
        ++ (st.rows.map erow.chars).drop (n + 1) := by
  rw [map_chars_eq_ciOf, delRow_ciOf st n hn]
  simp only [List.map_append, List.map_take, List.map_drop, List.map_map]
  rw [map_chars_eq_ciOf]
  rfl

lemma rowAppendString_charsOf (st : EditorConfig) (i : Int) (s : List Char) :
    (editorRowAppendString st i s).rows.map erow.chars
      = (st.rows.map erow.chars).set i.toNat ((rowGet st.rows i).chars ++ s) := by
  rw [map_chars_eq_ciOf, rowAppendString_ciOf, List.map_set, map_chars_eq_ciOf]

/-- C9: inserting an opener character also inserts its matching closer right
after the cursor: the row gains the two characters `[c, cc]` at the cursor
column and the cursor ends between the pair; a single `editorDelChar` at that
position then removes only the opener, leaving the closer behind, so the
insertion is not undone by one delete. -/
theorem C9_autoclose_insert_not_inverted_by_delete (st : EditorConfig)
    (y x : Nat) (c cc : Char)
    (hcc : closingCharOf c = some cc)
    (hcy : st.cy = (y : Int)) (hy : y < st.rows.length)
    (hcx : st.cx = (x : Int))
    (hx : x ≤ (st.rows.getD y emptyErow).chars.length) :
    ciOf (editorInsertChar st c).rows
      = (ciOf st.rows).set y
          ((st.rows.getD y emptyErow).chars.take x ++ [c, cc]
            ++ (st.rows.getD y emptyErow).chars.drop x,
           (st.rows.getD y emptyErow).idx)
    ∧ (editorInsertChar st c).cx = st.cx + 1
    ∧ (editorInsertChar st c).cy = st.cy
    ∧ (editorDelChar (editorInsertChar st c)).rows.map erow.chars
        = (st.rows.map erow.chars).set y
            ((st.rows.getD y emptyErow).chars.take x ++ [cc]
              ++ (st.rows.getD y emptyErow).chars.drop x)
    ∧ (editorDelChar (editorInsertChar st c)).rows.map erow.chars
        ≠ st.rows.map erow.chars := by
  set ch := (st.rows.getD y emptyErow).chars with hch
  set ix := (st.rows.getD y emptyErow).idx with hix
  have hlenA : (ch.take x).length = x := by
    rw [List.length_take]; omega
  -- the `E.cy == E.numrows` guard of editorInsertChar fails
  have hguard : ¬st.cy = (st.rows.length : Int) := by rw [hcy]; omega
  -- first insertion
  have h2 : ciOf (editorRowInsertChar st st.cy st.cx c).rows
      = (ciOf st.rows).set y (ch.take x ++ [c] ++ ch.drop x, ix) := by
    rw [hcy, hcx]; exact rowInsertChar_ciOf st y x c hx
  have h2cx : (editorRowInsertChar st st.cy st.cx c).cx = st.cx :=
    (rowInsertChar_fields st st.cy st.cx c).1
  have h2cy : (editorRowInsertChar st st.cy st.cx c).cy = st.cy :=
    (rowInsertChar_fields st st.cy st.cx c).2.1
  -- unfold editorInsertChar to the second insertion
  set st3 := ({ editorRowInsertChar st st.cy st.cx c with
      cx := (editorRowInsertChar st st.cy st.cx c).cx + 1 }) with hst3
  have hexp : editorInsertChar st c = editorRowInsertChar st3 st3.cy st3.cx cc := by
    unfold editorInsertChar
    rw [if_neg hguard, hcc]
  have hst3cy : st3.cy = (y : Int) := by
    show (editorRowInsertChar st st.cy st.cx c).cy = (y : Int)
    rw [h2cy, hcy]
  have hst3cx : st3.cx = (x : Int) + 1 := by
    show (editorRowInsertChar st st.cy st.cx c).cx + 1 = (x : Int) + 1
    rw [h2cx, hcx]
  have hst3rows : ciOf st3.rows = (ciOf st.rows).set y (ch.take x ++ [c] ++ ch.drop x, ix) := h2
  have hst3len : st3.rows.length = st.rows.length := by
    have := congrArg List.length hst3rows
    simp only [length_ciOf, List.length_set] at this
    exact this
  have hylt : y < (ciOf st.rows).length := by rw [length_ciOf]; exact hy
  have hci3 : ci (st3.rows.getD y emptyErow) = (ch.take x ++ [c] ++ ch.drop x, ix) := by
    have : ci (st3.rows.getD y emptyErow) = (ciOf st3.rows).getD y (ci emptyErow) := by
      rw [List.getD_eq_getElem?_getD, List.getD_eq_getElem?_getD]
      unfold ciOf
      rw [List.getElem?_map]
      cases st3.rows[y]? <;> rfl
    rw [this, hst3rows, getD_set_self_lt _ _ _ _ hylt]
  have hst3chars : (st3.rows.getD y emptyErow).chars = ch.take x ++ [c] ++ ch.drop x :=
    congrArg Prod.fst hci3
  have hst3idx : (st3.rows.getD y emptyErow).idx = ix :=
    congrArg Prod.snd hci3
  -- second insertion at column x + 1
  have h3 : ciOf (editorInsertChar st c).rows
      = (ciOf st.rows).set y (ch.take x ++ [c, cc] ++ ch.drop x, ix) := by
    rw [hexp, hst3cy, hst3cx]
    have hcast : (x : Int) + 1 = ((x + 1 : Nat) : Int) := by push_cast; ring
    rw [hcast]
    rw [rowInsertChar_ciOf st3 y (x + 1) cc (by rw [hst3chars]; simp; omega)]
    rw [hst3rows, hst3chars, hst3idx, List.set_set]
    have htake : (ch.take x ++ [c] ++ ch.drop x).take (x + 1) = ch.take x ++ [c] := by
      rw [List.append_assoc, List.take_append_eq_append_take, List.take_of_length_le (by omega),
        hlenA]
      congr 1
      rw [show x + 1 - x = 1 by omega]
      rfl
    have hdrop : (ch.take x ++ [c] ++ ch.drop x).drop (x + 1) = ch.drop x := by
      rw [List.append_assoc, List.drop_append_eq_append_drop, List.drop_of_length_le (by omega),
        hlenA, List.nil_append]
      rw [show x + 1 - x = 1 by omega]
      rfl
    rw [htake, hdrop]
    simp
  refine ⟨h3, ?_, ?_, ?_, ?_⟩
  · rw [hexp, (rowInsertChar_fields _ _ _ _).1, hst3cx, hcx]
  · rw [hexp, (rowInsertChar_fields _ _ _ _).2.1, hst3cy, hcy]
  all_goals {
    have h4cy : (editorInsertChar st c).cy = st.cy := by
      rw [hexp, (rowInsertChar_fields _ _ _ _).2.1, hst3cy, hcy]
    have h4cx : (editorInsertChar st c).cx = (x : Int) + 1 := by
      rw [hexp, (rowInsertChar_fields _ _ _ _).1, hst3cx]
    have h4len : (editorInsertChar st c).rows.length = st.rows.length := by
      have := congrArg List.length h3
      simp only [length_ciOf, List.length_set] at this
      exact this
    have h4chars : ((editorInsertChar st c).rows.getD y emptyErow).chars
        = ch.take x ++ [c, cc] ++ ch.drop x := by
      have hci : ci ((editorInsertChar st c).rows.getD y emptyErow)
          = (ch.take x ++ [c, cc] ++ ch.drop x, ix) := by
        have : ci ((editorInsertChar st c).rows.getD y emptyErow)
            = (ciOf (editorInsertChar st c).rows).getD y (ci emptyErow) := by
          rw [List.getD_eq_getElem?_getD, List.getD_eq_getElem?_getD]
          unfold ciOf
          rw [List.getElem?_map]
          cases (editorInsertChar st c).rows[y]? <;> rfl
        rw [this, h3, getD_set_self_lt _ _ _ _ hylt]
      exact congrArg Prod.fst hci
    -- editorDelChar takes the `E.cx > 0` branch
    have hdel : editorDelChar (editorInsertChar st c)
        = { editorRowDelChar (editorInsertChar st c) (editorInsertChar st c).cy
              ((editorInsertChar st c).cx - 1) with
            cx := (editorRowDelChar (editorInsertChar st c) (editorInsertChar st c).cy
              ((editorInsertChar st c).cx - 1)).cx - 1 } := by
      unfold editorDelChar
      rw [if_neg (by rw [h4cy, hcy, h4len]; omega),
        if_neg (by rw [h4cx]; intro hcon; omega),
        if_pos (by rw [h4cx]; omega)]
    have hdelci : ciOf (editorDelChar (editorInsertChar st c)).rows
        = (ciOf st.rows).set y (ch.take x ++ [cc] ++ ch.drop x, ix) := by
      rw [hdel]
      show ciOf (editorRowDelChar _ _ _).rows = _
      rw [h4cy, hcy, h4cx, show (x : Int) + 1 - 1 = (x : Int) by ring]
      rw [rowDelChar_ciOf _ y x (by rw [h4chars]; simp; omega)]
      rw [h4chars, h3, List.set_set]
      have hidx : ((editorInsertChar st c).rows.getD y emptyErow).idx = ix := by
        have hci : ci ((editorInsertChar st c).rows.getD y emptyErow)
            = (ch.take x ++ [c, cc] ++ ch.drop x, ix) := by
          have : ci ((editorInsertChar st c).rows.getD y emptyErow)
              = (ciOf (editorInsertChar st c).rows).getD y (ci emptyErow) := by
            rw [List.getD_eq_getElem?_getD, List.getD_eq_getElem?_getD]
            unfold ciOf
            rw [List.getElem?_map]
            cases (editorInsertChar st c).rows[y]? <;> rfl
          rw [this, h3, getD_set_self_lt _ _ _ _ hylt]
        exact congrArg Prod.snd hci
      rw [hidx]
      have herase : (ch.take x ++ [c, cc] ++ ch.drop x).eraseIdx x
          = ch.take x ++ [cc] ++ ch.drop x := by
        rw [List.append_assoc, List.eraseIdx_append_of_length_le (by omega),
          hlenA, Nat.sub_self]
        simp [List.eraseIdx]
      rw [herase]
    have hmapchars : (editorDelChar (editorInsertChar st c)).rows.map erow.chars
        = (st.rows.map erow.chars).set y (ch.take x ++ [cc] ++ ch.drop x) := by
      rw [map_chars_eq_ciOf, hdelci, List.map_set, map_chars_eq_ciOf]
    first
      | exact hmapchars
      | {
        rw [hmapchars]
        intro hcon
        have hgete : ((st.rows.map erow.chars).set y
            (ch.take x ++ [cc] ++ ch.drop x))[y]? = (st.rows.map erow.chars)[y]? := by
          rw [hcon]
        rw [List.getElem?_set_self (by simp; omega), List.getElem?_map,
          List.getElem?_eq_getElem hy] at hgete
        have hche : ch.take x ++ [cc] ++ ch.drop x = (st.rows.get ⟨y, hy⟩).chars := by
          simpa using hgete
        have hgetch : (st.rows.get ⟨y, hy⟩).chars = ch := by
          rw [hch]
          rw [List.getD_eq_getElem?_getD, List.getElem?_eq_getElem hy]
          rfl
        have hlen2 := congrArg List.length hche
        rw [hgetch] at hlen2
        simp only [List.length_append, List.length_take, List.length_drop,
          List.length_cons, List.length_nil] at hlen2
        omega }
  }

/-- Witness for C9: inserting `'('` into the row `"ab"` at column 1. -/
theorem C9_witness :
    (closingCharOf '(' = some ')'
     ∧ stRowAb.cy = ((0 : Nat) : Int) ∧ 0 < stRowAb.rows.length
     ∧ stRowAb.cx = ((1 : Nat) : Int)
     ∧ 1 ≤ (stRowAb.rows.getD 0 emptyErow).chars.length)
    ∧ (ciOf (editorInsertChar stRowAb '(').rows
        = (ciOf stRowAb.rows).set 0
            ((stRowAb.rows.getD 0 emptyErow).chars.take 1 ++ ['(', ')']
              ++ (stRowAb.rows.getD 0 emptyErow).chars.drop 1,
             (stRowAb.rows.getD 0 emptyErow).idx)
       ∧ (editorInsertChar stRowAb '(').cx = stRowAb.cx + 1
       ∧ (editorInsertChar stRowAb '(').cy = stRowAb.cy
       ∧ (editorDelChar (editorInsertChar stRowAb '(')).rows.map erow.chars
          = (stRowAb.rows.map erow.chars).set 0
              ((stRowAb.rows.getD 0 emptyErow).chars.take 1 ++ [')']
                ++ (stRowAb.rows.getD 0 emptyErow).chars.drop 1)
       ∧ (editorDelChar (editorInsertChar stRowAb '(')).rows.map erow.chars
          ≠ stRowAb.rows.map erow.chars) :=
  ⟨⟨by decide, by decide, by decide, by decide, by decide⟩,
    C9_autoclose_insert_not_inverted_by_delete stRowAb 0 1 '(' ')'
      (by decide) (by decide) (by decide) (by decide) (by decide)⟩

lemma set_take_last {α : Type} (l : List α) (y : Nat) (v : α) (h : y < l.length) :
    (l.take (y + 1)).set y v = l.take y ++ [v] := by
  rw [List.set_eq_take_cons_drop _ (by rw [List.length_take]; omega),
    List.take_take, Nat.min_eq_left (by omega)]
  have hnil : (l.take (y + 1)).drop (y + 1) = [] :=
    List.drop_of_length_le (by rw [List.length_take]; omega)
  rw [hnil]

lemma join_take_drop {α : Type} (T R : List α) (ch dc : α) (y : Nat)
    (hT : T.length = y) :
    ((((T ++ [ch]) ++ [dc]) ++ R).take (y + 1))
      ++ ((((T ++ [ch]) ++ [dc]) ++ R).drop (y + 1 + 1)) = T ++ ch :: R := by
  subst hT
  have h1 : (((T ++ [ch]) ++ [dc]) ++ R).take (T.length + 1) = T ++ [ch] := by
    rw [List.take_append_eq_append_take]
    rw [show T.length + 1 - ((T ++ [ch]) ++ [dc]).length = 0 by
      simp only [List.length_append, List.length_cons, List.length_nil]; omega]
    rw [List.take_zero, List.append_nil]
    rw [List.take_append_eq_append_take]
    rw [show T.length + 1 - (T ++ [ch]).length = 0 by
      simp only [List.length_append, List.length_cons, List.length_nil]; omega]
    rw [List.take_zero, List.append_nil]
    exact List.take_of_length_le (by
      simp only [List.length_append, List.length_cons, List.length_nil]; omega)
  have h2 : (((T ++ [ch]) ++ [dc]) ++ R).drop (T.length + 1 + 1) = R := by
    rw [List.drop_append_eq_append_drop]
    rw [List.drop_of_length_le (by
      simp only [List.length_append, List.length_cons, List.length_nil]; omega)]
    rw [show T.length + 1 + 1 - ((T ++ [ch]) ++ [dc]).length = 0 by
      simp only [List.length_append, List.length_cons, List.length_nil]; omega]
    simp
  rw [h1, h2, List.append_assoc]
  rfl

lemma charsOf_updateRowAtN (st : EditorConfig) (numrows : Nat) (i : Int) :
    (editorUpdateRowAtN st numrows i).rows.map erow.chars
      = st.rows.map erow.chars := by
  rw [map_chars_eq_ciOf, ciOf_updateRowAtN, ← map_chars_eq_ciOf]

/-- C6 (counterexample): on the single row `" a"` with the cursor at column
1, `editorInsertNewline` splits the row into `" "` and `"a"` but also copies
the row's leading space onto the new line (auto-indent), giving
`[" ", " a"]`; joining the halves with `editorDelChar` at the start of the
second row then yields `"  a"`, not the original `" a"`. -/
theorem C6_counterexample :
    stIndented.rows.map erow.chars = [[' ', 'a']]
    ∧ stIndented.cy = 0 ∧ stIndented.cx = 1
    ∧ (editorInsertNewline stIndented).rows.map erow.chars = [[' '], [' ', 'a']]
    ∧ (editorDelChar { editorInsertNewline stIndented with cx := 0 }).rows.map
        erow.chars = [[' ', ' ', 'a']]
    ∧ (editorDelChar { editorInsertNewline stIndented with cx := 0 }).rows.map
        erow.chars ≠ stIndented.rows.map erow.chars := by
  decide

/-- The split performed by `editorInsertNewline` when the current row has no
leading space (`prev_indent = 0`, so the auto-indent loop does nothing):
row `y` becomes its prefix up to the cursor column, a new row with the suffix
follows it, and the cursor lands at the start of the new row. -/
lemma insertNewline_split_noindent (st : EditorConfig) (y c : Nat)
    (hcy : st.cy = (y : Int)) (hy : y < st.rows.length)
    (hcx : st.cx = (c : Int))
    (hc : c ≤ (st.rows.getD y emptyErow).chars.length)
    (hpi : (st.rows.getD y emptyErow).chars.takeWhile (fun ch => ch = ' ') = []) :
    (editorInsertNewline st).rows.map erow.chars
      = (st.rows.map erow.chars).take y
        ++ [(st.rows.getD y emptyErow).chars.take c]
        ++ [(st.rows.getD y emptyErow).chars.drop c]
        ++ (st.rows.map erow.chars).drop (y + 1)
    ∧ (editorInsertNewline st).cy = (y : Int) + 1
    ∧ (editorInsertNewline st).cx = 0 := by
  have hAlen : (st.rows.map erow.chars).length = st.rows.length := by
    rw [List.length_map]
  have hAy : (st.rows.map erow.chars).getD y [] = (st.rows.getD y emptyErow).chars :=
    (chars_getD st.rows y).symm
  have hylt : y < (st.rows.map erow.chars).length := by omega
  have hAget : (st.rows.map erow.chars)[y] = (st.rows.getD y emptyErow).chars := by
    rw [← hAy, List.getD_eq_getElem?_getD, List.getElem?_eq_getElem hylt]
    rfl
  unfold editorInsertNewline
  dsimp only
  rw [hcy, hcx]
  simp only [rowGet_natCast]
  rw [if_pos (show (y : Int) < (st.rows.length : Int) by omega), hpi]
  simp only [List.length_nil]
  simp only [lt_self_iff_false, and_false, if_false, Int.toNat_natCast]
  by_cases hc0 : c = 0
  · subst hc0
    rw [if_pos (show ((0 : Nat) : Int) = 0 by norm_num)]
    refine ⟨?_, ?_, trivial⟩
    · show (editorInsertRow st (y : Int) []).rows.map erow.chars = _
      rw [insertRow_charsOf st y [] (by omega)]
      rw [List.drop_eq_getElem_cons (show y < (st.rows.map erow.chars).length by omega),
        hAget]
      simp
    · show (editorInsertRow st (y : Int) []).cy + 1 = (y : Int) + 1
      rw [(insertRow_fields st (y : Int) []).2.1, hcy]
  · rw [if_neg (show ¬((c : Int) = 0) by omega)]
    have hcast : (y : Int) + 1 = ((y + 1 : Nat) : Int) := by push_cast; ring
    rw [hcast]
    have hA' : (editorInsertRow st ((y + 1 : Nat) : Int)
          ((st.rows.getD y emptyErow).chars.drop c)).rows.map erow.chars
        = (st.rows.map erow.chars).take (y + 1)
          ++ [(st.rows.getD y emptyErow).chars.drop c]
          ++ (st.rows.map erow.chars).drop (y + 1) :=
      insertRow_charsOf st (y + 1) _ (by omega)
    have hrow2 : ((editorInsertRow st ((y + 1 : Nat) : Int)
          ((st.rows.getD y emptyErow).chars.drop c)).rows.getD y emptyErow).chars
        = (st.rows.getD y emptyErow).chars := by
      rw [chars_getD, hA', List.getD_eq_getElem?_getD]
      rw [List.getElem?_append_left (by
        simp only [List.length_append, List.length_take]
        omega)]
      rw [List.getElem?_append_left (by rw [List.length_take]; omega)]
      rw [List.getElem?_take_of_lt (by omega), List.getElem?_eq_getElem (by omega),
        hAget]
      rfl
    refine ⟨?_, ?_, trivial⟩
    · show (editorUpdateRowAt _ (y : Int)).rows.map erow.chars = _
      unfold editorUpdateRowAt
      rw [charsOf_updateRowAtN]
      show ((rowsSet _ (y : Int) _).map erow.chars) = _
      rw [rowsSet_natCast, List.map_set]
      show (((editorInsertRow st ((y + 1 : Nat) : Int)
          ((st.rows.getD y emptyErow).chars.drop c)).rows.map erow.chars).set y _) = _
      rw [hrow2, hA']
      rw [List.set_append_left _ _ (by
        simp only [List.length_append, List.length_take]
        omega)]
      rw [List.set_append_left _ _ (by rw [List.length_take]; omega)]
      rw [set_take_last _ _ _ (by omega)]
    · show (editorUpdateRowAt _ (y : Int)).cy + 1 = _
      unfold editorUpdateRowAt
      rw [(updateRowAtN_fields _ _ _).2.1]
      show (editorInsertRow st ((y + 1 : Nat) : Int) _).cy + 1 = _
      rw [(insertRow_fields _ _ _).2.1, hcy, hcast]

/-- C6 (amended): for a row with no leading space (so `editorInsertNewline`'s
auto-indent inserts nothing), splitting at any column `0 ≤ c ≤ length` and
then joining the two halves with `editorDelChar` (backspace at the start of
the new row, which is exactly where the cursor lands) restores the document
content. -/
theorem C6_split_join_no_leading_space (st : EditorConfig) (y c : Nat)
    (hcy : st.cy = (y : Int)) (hy : y < st.rows.length)
    (hcx : st.cx = (c : Int))
    (hc : c ≤ (st.rows.getD y emptyErow).chars.length)
    (hpi : (st.rows.getD y emptyErow).chars.takeWhile (fun ch => ch = ' ') = []) :
    (editorDelChar (editorInsertNewline st)).rows.map erow.chars
      = st.rows.map erow.chars := by
  obtain ⟨hsp, hspcy, hspcx⟩ :=
    insertNewline_split_noindent st y c hcy hy hcx hc hpi
  have hAlen : (st.rows.map erow.chars).length = st.rows.length := by
    rw [List.length_map]
  have hylt : y < (st.rows.map erow.chars).length := by omega
  have hAget : (st.rows.map erow.chars)[y]
      = (st.rows.getD y emptyErow).chars := by
    have hrg : st.rows.getD y emptyErow = st.rows[y] := by
      rw [List.getD_eq_getElem?_getD, List.getElem?_eq_getElem hy]
      rfl
    rw [hrg, List.getElem_map]
  have hsplen : (editorInsertNewline st).rows.length = st.rows.length + 1 := by
    have := congrArg List.length hsp
    simp only [List.length_map, List.length_append, List.length_take,
      List.length_drop, List.length_cons, List.length_nil] at this
    omega
  have hcast : (y : Int) + 1 = ((y + 1 : Nat) : Int) := by push_cast; ring
  -- the chars of the two halves in the split state
  have hgety1 : ((editorInsertNewline st).rows.getD (y + 1) emptyErow).chars
      = (st.rows.getD y emptyErow).chars.drop c := by
    rw [chars_getD, hsp, List.getD_eq_getElem?_getD]
    rw [List.getElem?_append_left (by
      simp only [List.length_append, List.length_take, List.length_cons,
        List.length_nil]
      omega)]
    rw [List.getElem?_append_right (by
      simp only [List.length_append, List.length_take, List.length_cons,
        List.length_nil]
      omega)]
    simp only [List.length_append, List.length_take, List.length_cons,
      List.length_nil]
    rw [Nat.min_eq_left (show y ≤ (st.rows.map erow.chars).length by omega)]
    rw [show y + 1 - (y + 1) = 0 by omega]
    rfl
  have hgety : ((editorInsertNewline st).rows.getD y emptyErow).chars
      = (st.rows.getD y emptyErow).chars.take c := by
    rw [chars_getD, hsp, List.getD_eq_getElem?_getD]
    rw [List.getElem?_append_left (by
      simp only [List.length_append, List.length_take, List.length_cons,
        List.length_nil]
      omega)]
    rw [List.getElem?_append_left (by
      simp only [List.length_append, List.length_take, List.length_cons,
        List.length_nil]
      omega)]
    rw [List.getElem?_append_right (by
      simp only [List.length_take]
      omega)]
    simp only [List.length_take]
    rw [Nat.min_eq_left (show y ≤ (st.rows.map erow.chars).length by omega)]
    rw [Nat.sub_self]
    rfl
  -- the join: editorDelChar takes the column-0 join branch
  have hjoin : editorDelChar (editorInsertNewline st)
      = { editorDelRow
            (editorRowAppendString
              { editorInsertNewline st with
                cx := ((rowGet (editorInsertNewline st).rows
                  ((editorInsertNewline st).cy - 1)).chars.length : Int) }
              ((editorInsertNewline st).cy - 1)
              (rowGet (editorInsertNewline st).rows (editorInsertNewline st).cy).chars)
            (editorRowAppendString
              { editorInsertNewline st with
                cx := ((rowGet (editorInsertNewline st).rows
                  ((editorInsertNewline st).cy - 1)).chars.length : Int) }
              ((editorInsertNewline st).cy - 1)
              (rowGet (editorInsertNewline st).rows (editorInsertNewline st).cy).chars).cy
          with
          cy := (editorDelRow
            (editorRowAppendString
              { editorInsertNewline st with
                cx := ((rowGet (editorInsertNewline st).rows
                  ((editorInsertNewline st).cy - 1)).chars.length : Int) }
              ((editorInsertNewline st).cy - 1)
              (rowGet (editorInsertNewline st).rows (editorInsertNewline st).cy).chars)
            (editorRowAppendString
              { editorInsertNewline st with
                cx := ((rowGet (editorInsertNewline st).rows
                  ((editorInsertNewline st).cy - 1)).chars.length : Int) }
              ((editorInsertNewline st).cy - 1)
              (rowGet (editorInsertNewline st).rows (editorInsertNewline st).cy).chars).cy).cy
            - 1 } := by
    unfold editorDelChar
    rw [if_neg (by rw [hspcy, hsplen]; intro hcon; omega)]
    rw [if_neg (by rw [hspcy]; intro hcon; omega)]
    rw [if_neg (by rw [hspcx]; omega)]
  rw [hjoin]
  show (editorDelRow _ _).rows.map erow.chars = _
  have happend : (editorRowAppendString
      { editorInsertNewline st with
        cx := ((rowGet (editorInsertNewline st).rows
          ((editorInsertNewline st).cy - 1)).chars.length : Int) }
      ((editorInsertNewline st).cy - 1)
      (rowGet (editorInsertNewline st).rows (editorInsertNewline st).cy).chars).rows.map
        erow.chars
      = ((editorInsertNewline st).rows.map erow.chars).set y
          (st.rows.getD y emptyErow).chars := by
    rw [rowAppendString_charsOf]
    dsimp only
    rw [hspcy, show (y : Int) + 1 - 1 = (y : Int) by ring, rowGet_natCast,
      Int.toNat_natCast, hcast, rowGet_natCast, hgety, hgety1,
      List.take_append_drop]
  have happcy : (editorRowAppendString
      { editorInsertNewline st with
        cx := ((rowGet (editorInsertNewline st).rows
          ((editorInsertNewline st).cy - 1)).chars.length : Int) }
      ((editorInsertNewline st).cy - 1)
      (rowGet (editorInsertNewline st).rows (editorInsertNewline st).cy).chars).cy
      = ((y + 1 : Nat) : Int) := by
    rw [(rowAppendString_fields _ _ _).2.1]
    show (editorInsertNewline st).cy = _
    rw [hspcy, hcast]
  have happlen : (editorRowAppendString
      { editorInsertNewline st with
        cx := ((rowGet (editorInsertNewline st).rows
          ((editorInsertNewline st).cy - 1)).chars.length : Int) }
      ((editorInsertNewline st).cy - 1)
      (rowGet (editorInsertNewline st).rows (editorInsertNewline st).cy).chars).rows.length
      = st.rows.length + 1 := by
    have := congrArg List.length happend
    simp only [List.length_map, List.length_set] at this
    rw [this, hsplen]
  rw [happcy]
  rw [delRow_charsOf _ (y + 1) (by rw [happlen]; omega)]
  rw [happend, hsp]
  -- split state with row y replaced by the re-joined full row
  rw [List.set_append_left _ _ (by
    simp only [List.length_append, List.length_take, List.length_cons,
      List.length_nil]
    omega)]
  rw [List.set_append_left _ _ (by
    simp only [List.length_append, List.length_take, List.length_cons,
      List.length_nil]
    omega)]
  rw [List.set_append_right _ _ (by rw [List.length_take]; omega)]
  rw [List.length_take, Nat.min_eq_left (by omega), Nat.sub_self]
  rw [List.set_cons_zero]
  rw [join_take_drop _ _ _ _ y (by rw [List.length_take]; omega)]
  rw [← show (st.rows.map erow.chars).drop y
      = (st.rows.getD y emptyErow).chars :: (st.rows.map erow.chars).drop (y + 1)
    from by
      rw [List.drop_eq_getElem_cons (show y < (st.rows.map erow.chars).length
        by omega), hAget]]
  rw [List.take_append_drop]

/-- Witness for the amended C6 at the row `"xy z"` (no leading space) split
at column 2. -/
theorem C6_witness :
    (stUnindented.cy = ((0 : Nat) : Int) ∧ 0 < stUnindented.rows.length
     ∧ stUnindented.cx = ((2 : Nat) : Int)
     ∧ 2 ≤ (stUnindented.rows.getD 0 emptyErow).chars.length
     ∧ (stUnindented.rows.getD 0 emptyErow).chars.takeWhile
         (fun ch => ch = ' ') = [])
    ∧ (editorDelChar (editorInsertNewline stUnindented)).rows.map erow.chars
        = stUnindented.rows.map erow.chars :=
  ⟨⟨by decide, by decide, by decide, by decide, by decide⟩,
    C6_split_join_no_leading_space stUnindented 0 2 (by decide) (by decide)
      (by decide) (by decide) (by decide)⟩

/-- The row-deletion loop of `editorDelCharSelection` removes exactly the
rows strictly between the range start row and the range end row (inclusive of
the end row): deleting from index `s + k` down to `s + 1` leaves the first
`s + 1` rows and the rows after index `s + k`. -/
lemma delRowsLoop_charsOf (s : Nat) :
    ∀ (k : Nat) (st : EditorConfig), s + k < st.rows.length →
      (delRowsLoop st ((s + k : Nat) : Int) (s : Int)).rows.map erow.chars
        = (st.rows.map erow.chars).take (s + 1)
          ++ (st.rows.map erow.chars).drop (s + k + 1) := by
  intro k
  induction k with
  | zero =>
    intro st hk
    unfold delRowsLoop
    rw [show (((s + 0 : Nat) : Int) - (s : Int)).toNat = 0 by omega]
    simp only [delRowsGo]
    rw [show s + 0 + 1 = s + 1 by omega, List.take_append_drop]
  | succ k ih =>
    intro st hk
    unfold delRowsLoop
    rw [show (((s + (k + 1) : Nat) : Int) - (s : Int)).toNat = k + 1 by omega]
    simp only [delRowsGo]
    rw [if_pos (show ((s + (k + 1) : Nat) : Int) > (s : Int) by omega)]
    have hreu : delRowsGo (s : Int) k
          (editorDelRow st ((s + (k + 1) : Nat) : Int))
          (((s + (k + 1) : Nat) : Int) - 1)
        = delRowsLoop (editorDelRow st ((s + (k + 1) : Nat) : Int))
            ((s + k : Nat) : Int) (s : Int) := by
      unfold delRowsLoop
      rw [show (((s + k : Nat) : Int) - (s : Int)).toNat = k by omega]
      rw [show (((s + (k + 1) : Nat) : Int) - 1) = ((s + k : Nat) : Int) by push_cast; ring]
    rw [hreu]
    have hdellen : (editorDelRow st ((s + (k + 1) : Nat) : Int)).rows.length
        = st.rows.length - 1 := by
      have := congrArg List.length (delRow_charsOf st (s + (k + 1)) (by omega))
      simp only [List.length_map, List.length_append, List.length_take,
        List.length_drop] at this
      omega
    rw [ih _ (by omega)]
    rw [delRow_charsOf st (s + (k + 1)) (by omega)]
    have hAlen : (st.rows.map erow.chars).length = st.rows.length := by
      rw [List.length_map]
    have hXlen : ((st.rows.map erow.chars).take (s + (k + 1))).length = s + (k + 1) := by
      rw [List.length_take, Nat.min_eq_left (by omega)]
    rw [List.take_append_eq_append_take]
    rw [show s + 1 - ((st.rows.map erow.chars).take (s + (k + 1))).length = 0 by
      rw [hXlen]; omega]
    rw [List.take_zero, List.append_nil]
    rw [List.take_take, Nat.min_eq_left (by omega)]
    rw [List.drop_append_eq_append_drop]
    rw [show ((st.rows.map erow.chars).take (s + (k + 1))).drop (s + k + 1) = []
      from List.drop_eq_nil_of_le (by rw [hXlen]; omega)]
    rw [show s + k + 1 - ((st.rows.map erow.chars).take (s + (k + 1))).length = 0 by
      rw [hXlen]; omega]
    rw [List.drop_zero, List.nil_append]

/-- Truncating row `scy` to its first `scx` characters and rebuilding that
row (the first step of `editorDelCharSelection`'s non-empty branch), seen
through the per-row character contents. -/
lemma truncRow_charsOf (st : EditorConfig) (scy scx : Nat) :
    (editorUpdateRowAt
      { st with rows := st.rows.set scy
                  { st.rows.getD scy emptyErow with
                    chars := (st.rows.getD scy emptyErow).chars.take scx } }
      ((scy : Nat) : Int)).rows.map erow.chars
    = (st.rows.map erow.chars).set scy
        ((st.rows.getD scy emptyErow).chars.take scx) := by
  unfold editorUpdateRowAt
  rw [charsOf_updateRowAtN]
  show List.map erow.chars (st.rows.set scy _) = _
  rw [List.map_set]

/-- The truncation step does not change the number of rows. -/
lemma truncRow_length (st : EditorConfig) (scy scx : Nat) :
    (editorUpdateRowAt
      { st with rows := st.rows.set scy
                  { st.rows.getD scy emptyErow with
                    chars := (st.rows.getD scy emptyErow).chars.take scx } }
      ((scy : Nat) : Int)).rows.length = st.rows.length := by
  have hh := congrArg List.length (truncRow_charsOf st scy scx)
  simp only [List.length_map, List.length_set] at hh
  exact hh

lemma set_take_append_drop {α : Type} (A : List α) (v : α) (y m : Nat)
    (hy : y < A.length) (hym : y ≤ m) :
    ((A.set y v).take (y + 1)) ++ ((A.set y v).drop (m + 1))
      = (A.take y ++ [v]) ++ A.drop (m + 1) := by
  have hT : (A.take y).length = y := by
    rw [List.length_take, Nat.min_eq_left (by omega)]
  rw [List.set_eq_take_cons_drop _ hy]
  rw [List.take_append_eq_append_take,
    List.take_of_length_le (show (A.take y).length ≤ y + 1 by rw [hT]; omega),
    show y + 1 - (A.take y).length = 0 + 1 by rw [hT]; omega,
    List.take_succ_cons, List.take_zero]
  rw [List.drop_append_eq_append_drop,
    List.drop_eq_nil_of_le (show (A.take y).length ≤ m + 1 by rw [hT]; omega),
    show m + 1 - (A.take y).length = (m - y) + 1 by rw [hT]; omega,
    List.drop_succ_cons, List.nil_append, List.drop_drop,
    show y + 1 + (m - y) = m + 1 by omega]

/-- Re-appending the saved last-row suffix onto the truncated first row,
given the shape of the row store after the deletion loop. -/
lemma delSel_tail_charsOf {st2e : EditorConfig} {scy : Nat}
    {T R : List (List Char)} {v suf : List Char}
    (h2 : st2e.rows.map erow.chars = (T ++ [v]) ++ R)
    (hT : T.length = scy) :
    (editorRowAppendString st2e ((scy : Nat) : Int) suf).rows.map erow.chars
      = (T ++ [v ++ suf]) ++ R := by
  rw [rowAppendString_charsOf, Int.toNat_natCast, rowGet_natCast]
  have hgd : (st2e.rows.getD scy emptyErow).chars = v := by
    rw [chars_getD, h2, ← hT, List.getD_eq_getElem?_getD,
      List.getElem?_append_left (show T.length < (T ++ [v]).length by
        rw [List.length_append, List.length_cons, List.length_nil]; omega),
      List.getElem?_append_right (Nat.le_refl _), Nat.sub_self]
    rfl
  rw [hgd, h2, ← hT,
    List.set_append_left _ _ (by
      rw [List.length_append, List.length_cons, List.length_nil]; omega),
    List.set_append_right _ _ (Nat.le_refl _), Nat.sub_self,
    List.set_cons_zero]

/-- C5: for an active selection whose normalized range is non-empty and in
bounds, `editorDelCharSelection` truncates the first row at the range start
column, removes every row of the range below the first, appends the last
row's suffix (from the range end column) onto the truncated first row, puts
the cursor at the range start and deactivates the selection.  For a
single-row range (second conjunct) this removes exactly the substring
between the two columns. -/
theorem C5_delete_selection_range (st : EditorConfig) (scx scy ecx ecy : Nat)
    (hact : st.selection_active = true)
    (hq : normSel st.selection_start_cx st.selection_start_cy
        st.selection_end_cx st.selection_end_cy
        = ((scx : Int), (scy : Int), (ecx : Int), (ecy : Int)))
    (hle : scy ≤ ecy)
    (hne : ¬(scy = ecy ∧ scx = ecx))
    (hey : ecy < st.rows.length)
    (hex : ecx ≤ (st.rows.getD ecy emptyErow).chars.length) :
    ((editorDelCharSelection st).rows.map erow.chars
        = (st.rows.map erow.chars).take scy
          ++ [(st.rows.getD scy emptyErow).chars.take scx
              ++ (st.rows.getD ecy emptyErow).chars.drop ecx]
          ++ (st.rows.map erow.chars).drop (ecy + 1)
      ∧ (editorDelCharSelection st).cx = (scx : Int)
      ∧ (editorDelCharSelection st).cy = (scy : Int)
      ∧ (editorDelCharSelection st).selection_active = false)
    ∧ (scy = ecy →
        (editorDelCharSelection st).rows.map erow.chars
          = (st.rows.map erow.chars).set scy
              ((st.rows.getD scy emptyErow).chars.take scx
                ++ (st.rows.getD scy emptyErow).chars.drop ecx)) := by
  have hAlen : (st.rows.map erow.chars).length = st.rows.length := by
    rw [List.length_map]
  have hT : ((st.rows.map erow.chars).take scy).length = scy := by
    rw [List.length_take, Nat.min_eq_left (by rw [hAlen]; omega)]
  have h2 : (delRowsLoop (editorUpdateRowAt
        { st with rows := st.rows.set scy
                    { st.rows.getD scy emptyErow with
                      chars := (st.rows.getD scy emptyErow).chars.take scx } }
        ((scy : Nat) : Int))
      ((scy + (ecy - scy) : Nat) : Int) ((scy : Nat) : Int)).rows.map erow.chars
      = (((st.rows.map erow.chars).take scy
          ++ [(st.rows.getD scy emptyErow).chars.take scx])
        ++ (st.rows.map erow.chars).drop (ecy + 1)) := by
    refine (delRowsLoop_charsOf scy (ecy - scy) _ ?_).trans ?_
    · rw [truncRow_length]
      omega
    · rw [truncRow_charsOf]
      rw [show scy + (ecy - scy) + 1 = ecy + 1 by omega]
      exact set_take_append_drop (st.rows.map erow.chars)
        ((st.rows.getD scy emptyErow).chars.take scx) scy ecy
        (by rw [hAlen]; omega) hle
  have hmain : (editorDelCharSelection st).rows.map erow.chars
        = (st.rows.map erow.chars).take scy
          ++ [(st.rows.getD scy emptyErow).chars.take scx
              ++ (st.rows.getD ecy emptyErow).chars.drop ecx]
          ++ (st.rows.map erow.chars).drop (ecy + 1)
      ∧ (editorDelCharSelection st).cx = (scx : Int)
      ∧ (editorDelCharSelection st).cy = (scy : Int)
      ∧ (editorDelCharSelection st).selection_active = false := by
    unfold editorDelCharSelection
    rw [if_neg (by simp [hact])]
    dsimp only
    rw [hq]
    dsimp only
    rw [if_neg (show ¬(((scy : Nat) : Int) = ((ecy : Nat) : Int)
        ∧ ((scx : Nat) : Int) = ((ecx : Nat) : Int)) by omega)]
    simp only [rowGet_natCast, rowsSet_natCast, Int.toNat_natCast]
    rw [show ((ecy : Nat) : Int) = ((scy + (ecy - scy) : Nat) : Int) by omega]
    refine ⟨?_, by trivial, by trivial, by trivial⟩
    by_cases hsuf : ecx < (st.rows.getD ecy emptyErow).chars.length
    · rw [if_pos (show ((ecx : Nat) : Int)
          < ((st.rows.getD ecy emptyErow).chars.length : Int) by omega)]
      rw [if_pos (show 0 < ((st.rows.getD ecy emptyErow).chars.drop ecx).length by
        rw [List.length_drop]; omega)]
      rw [delSel_tail_charsOf h2 hT, List.append_assoc]
    · rw [if_neg (show ¬(((ecx : Nat) : Int)
          < ((st.rows.getD ecy emptyErow).chars.length : Int)) by omega)]
      rw [if_neg (show ¬(0 < (([] : List Char)).length) by simp)]
      have hdrop : (st.rows.getD ecy emptyErow).chars.drop ecx = [] :=
        List.drop_eq_nil_of_le (by omega)
      rw [hdrop, List.append_nil, h2, List.append_assoc]
  refine ⟨hmain, ?_⟩
  intro heq
  subst heq
  rw [hmain.1]
  rw [List.set_eq_take_cons_drop _
    (show scy < (st.rows.map erow.chars).length by rw [hAlen]; omega)]
  rw [List.append_assoc, List.singleton_append]

/-- C5 at the spec's example state: rows `["abc", "def"]` with the range
(0,1)–(1,2) selected; the delete leaves the single row `"af"`, the cursor at
(1, 0), and the selection inactive. -/
theorem C5_witness :
    (stDemoSel.selection_active = true
      ∧ normSel stDemoSel.selection_start_cx stDemoSel.selection_start_cy
          stDemoSel.selection_end_cx stDemoSel.selection_end_cy
          = (((1 : Nat) : Int), ((0 : Nat) : Int), ((2 : Nat) : Int),
             ((1 : Nat) : Int))
      ∧ (0 : Nat) ≤ 1 ∧ ¬((0 : Nat) = 1 ∧ (1 : Nat) = 2)
      ∧ 1 < stDemoSel.rows.length
      ∧ 2 ≤ (stDemoSel.rows.getD 1 emptyErow).chars.length)
    ∧ (((editorDelCharSelection stDemoSel).rows.map erow.chars
          = (stDemoSel.rows.map erow.chars).take 0
            ++ [(stDemoSel.rows.getD 0 emptyErow).chars.take 1
                ++ (stDemoSel.rows.getD 1 emptyErow).chars.drop 2]
            ++ (stDemoSel.rows.map erow.chars).drop (1 + 1)
        ∧ (editorDelCharSelection stDemoSel).cx = ((1 : Nat) : Int)
        ∧ (editorDelCharSelection stDemoSel).cy = ((0 : Nat) : Int)
        ∧ (editorDelCharSelection stDemoSel).selection_active = false)
      ∧ ((0 : Nat) = 1 →
          (editorDelCharSelection stDemoSel).rows.map erow.chars
            = (stDemoSel.rows.map erow.chars).set 0
                ((stDemoSel.rows.getD 0 emptyErow).chars.take 1
                  ++ (stDemoSel.rows.getD 0 emptyErow).chars.drop 2))) :=
  ⟨⟨by decide, by decide, by decide, by decide, by decide, by decide⟩,
    C5_delete_selection_range stDemoSel 1 0 2 1 (by decide) (by decide)
      (by decide) (by decide) (by decide) (by decide)⟩

/-! C2: the row-index invariant `row[i].idx == i`. -/

/-- The invariant maintained by the row store: every row's `idx` field equals
its position in the store. -/
def idxOk (rows : List erow) : Prop :=
  ∀ i, i < rows.length → (rows.getD i emptyErow).idx = (i : Int)

instance idxOkDecidable (rows : List erow) : Decidable (idxOk rows) := by
  unfold idxOk
  infer_instance

lemma idxOk_get? {rows : List erow} (h : idxOk rows) (i : Nat) (r : erow)
    (hir : rows[i]? = some r) : r.idx = (i : Int) := by
  have hlt : i < rows.length := by
    by_contra hge
    rw [List.getElem?_eq_none (by omega)] at hir
    exact Option.noConfusion hir
  have h2 := h i hlt
  rw [List.getD_eq_getElem?_getD, hir] at h2
  exact h2

lemma idxOk_of_get? {rows : List erow}
    (h : ∀ (i : Nat) (r : erow), rows[i]? = some r → r.idx = (i : Int)) :
    idxOk rows := by
  intro i hi
  have h2 := h i (rows.get ⟨i, hi⟩) (by rw [List.getElem?_eq_getElem hi]; rfl)
  rw [List.getD_eq_getElem?_getD, List.getElem?_eq_getElem hi]
  exact h2

/-- A row's `idx` read through the `(chars, idx)` projection of the store. -/
lemma idx_getD (rows : List erow) (y : Nat) :
    (rows.getD y emptyErow).idx = ((ciOf rows).getD y (ci emptyErow)).2 := by
  unfold ciOf
  rw [List.getD_eq_getElem?_getD, List.getD_eq_getElem?_getD, List.getElem?_map]
  cases rows[y]? <;> rfl

lemma idx_updateRowAtN (st : EditorConfig) (numrows : Nat) (j : Int) (i : Nat) :
    ((editorUpdateRowAtN st numrows j).rows.getD i emptyErow).idx
      = (st.rows.getD i emptyErow).idx := by
  rw [idx_getD, idx_getD, ciOf_updateRowAtN]

lemma idx_after_update (st : EditorConfig) (j : Int) (i : Nat) :
    ((editorUpdateRowAt st j).rows.getD i emptyErow).idx
      = (st.rows.getD i emptyErow).idx := by
  unfold editorUpdateRowAt
  exact idx_updateRowAtN _ _ _ _

lemma length_updateRowAt (st : EditorConfig) (j : Int) :
    (editorUpdateRowAt st j).rows.length = st.rows.length := by
  unfold editorUpdateRowAt
  exact length_updateRowAtN _ _ _

lemma idxOk_updateRowAtN (st : EditorConfig) (numrows : Nat) (j : Int)
    (h : idxOk st.rows) : idxOk (editorUpdateRowAtN st numrows j).rows := by
  intro i hi
  rw [length_updateRowAtN] at hi
  rw [idx_updateRowAtN]
  exact h i hi

lemma idxOk_updateRowAt (st : EditorConfig) (j : Int) (h : idxOk st.rows) :
    idxOk (editorUpdateRowAt st j).rows := by
  unfold editorUpdateRowAt
  exact idxOk_updateRowAtN st st.rows.length j h

/-- Writing back a row whose `idx` agrees with the row already stored there
preserves the invariant. -/
lemma idxOk_rowsSet (rows : List erow) (j : Int) (r : erow)
    (hr : r.idx = (rowGet rows j).idx) (h : idxOk rows) :
    idxOk (rowsSet rows j r) := by
  intro i hi
  unfold rowsSet at hi ⊢
  rw [List.length_set] at hi
  by_cases hij : i = j.toNat
  · subst hij
    rw [getD_set_self_lt _ _ _ _ hi, hr]
    unfold rowGet
    exact h _ hi
  · rw [List.getD_eq_getElem?_getD, List.getElem?_set_ne (by omega),
      ← List.getD_eq_getElem?_getD]
    exact h i hi

lemma idxOk_rowInsertChar (st : EditorConfig) (j a : Int) (c : Char)
    (h : idxOk st.rows) : idxOk (editorRowInsertChar st j a c).rows := by
  unfold editorRowInsertChar
  dsimp only
  exact idxOk_updateRowAt _ _ (idxOk_rowsSet _ _ _ rfl h)

lemma idxOk_rowAppendString (st : EditorConfig) (j : Int) (s : List Char)
    (h : idxOk st.rows) : idxOk (editorRowAppendString st j s).rows := by
  unfold editorRowAppendString
  dsimp only
  exact idxOk_updateRowAt _ _ (idxOk_rowsSet _ _ _ rfl h)

lemma idxOk_rowDelChar (st : EditorConfig) (j a : Int)
    (h : idxOk st.rows) : idxOk (editorRowDelChar st j a).rows := by
  unfold editorRowDelChar
  dsimp only
  split
  · exact h
  · exact idxOk_updateRowAt _ _ (idxOk_rowsSet _ _ _ rfl h)

/-- `editorInsertRow` renumbers every subsequent row, so the invariant is
preserved (the out-of-range call is a no-op). -/
lemma idxOk_insertRow (st : EditorConfig) (a : Int) (s : List Char)
    (h : idxOk st.rows) : idxOk (editorInsertRow st a s).rows := by
  unfold editorInsertRow
  by_cases hg : a < 0 ∨ a > (st.rows.length : Int)
  · rw [if_pos hg]
    exact h
  · rw [if_neg hg]
    dsimp only
    apply idxOk_updateRowAtN
    apply idxOk_of_get?
    intro i r hir
    have lenT : (st.rows.take a.toNat).length = a.toNat := by
      rw [List.length_take, Nat.min_eq_left (by omega)]
    rcases Nat.lt_trichotomy i a.toNat with hlt | heq | hgt
    · rw [List.getElem?_append_left (show i
          < ((st.rows.take a.toNat
              ++ [{ idx := a, chars := s, render := [], hl := [],
                    hl_open_comment := false }] : List erow)).length by
        rw [List.length_append, lenT]
        simp only [List.length_cons, List.length_nil]
        omega)] at hir
      rw [List.getElem?_append_left (show i < (st.rows.take a.toNat).length by
        omega), List.getElem?_take_of_lt hlt] at hir
      exact idxOk_get? h i r hir
    · rw [List.getElem?_append_left (show i
          < ((st.rows.take a.toNat
              ++ [{ idx := a, chars := s, render := [], hl := [],
                    hl_open_comment := false }] : List erow)).length by
        rw [List.length_append, lenT]
        simp only [List.length_cons, List.length_nil]
        omega)] at hir
      rw [List.getElem?_append_right (show (st.rows.take a.toNat).length ≤ i by
        omega), show i - (st.rows.take a.toNat).length = 0 by omega] at hir
      rw [List.getElem?_cons_zero] at hir
      cases hir
      show a = (i : Int)
      omega
    · rw [List.getElem?_append_right (show ((st.rows.take a.toNat
          ++ [{ idx := a, chars := s, render := [], hl := [],
                hl_open_comment := false }] : List erow)).length ≤ i by
        rw [List.length_append, lenT]
        simp only [List.length_cons, List.length_nil]
        omega)] at hir
      rw [List.getElem?_map, List.getElem?_drop] at hir
      rw [show a.toNat + (i - ((st.rows.take a.toNat
          ++ [{ idx := a, chars := s, render := [], hl := [],
                hl_open_comment := false }] : List erow)).length) = i - 1 by
        rw [List.length_append, lenT]
        simp only [List.length_cons, List.length_nil]
        omega] at hir
      cases hq : st.rows[i - 1]? with
      | none => rw [hq] at hir; exact Option.noConfusion hir
      | some q =>
        rw [hq] at hir
        cases hir
        have hqidx := idxOk_get? h (i - 1) q hq
        show q.idx + 1 = (i : Int)
        rw [hqidx]
        omega

/-- `editorDelRow` renumbers every subsequent row downwards, so the invariant
is preserved (the out-of-range call is a no-op). -/
lemma idxOk_delRow (st : EditorConfig) (a : Int) (h : idxOk st.rows) :
    idxOk (editorDelRow st a).rows := by
  unfold editorDelRow
  by_cases hg : a < 0 ∨ a ≥ (st.rows.length : Int)
  · rw [if_pos hg]
    exact h
  · rw [if_neg hg]
    apply idxOk_of_get?
    intro i r hir
    have lenT : (st.rows.take a.toNat).length = a.toNat := by
      rw [List.length_take, Nat.min_eq_left (by omega)]
    rcases Nat.lt_or_ge i a.toNat with hlt | hge
    · rw [List.getElem?_append_left (show i < (st.rows.take a.toNat).length by
        omega), List.getElem?_take_of_lt hlt] at hir
      exact idxOk_get? h i r hir
    · rw [List.getElem?_append_right (show (st.rows.take a.toNat).length ≤ i by
        omega)] at hir
      rw [List.getElem?_map, List.getElem?_drop] at hir
      rw [show a.toNat + 1 + (i - (st.rows.take a.toNat).length) = i + 1 by
        omega] at hir
      cases hq : st.rows[i + 1]? with
      | none => rw [hq] at hir; exact Option.noConfusion hir
      | some q =>
        rw [hq] at hir
        cases hir
        have hqidx := idxOk_get? h (i + 1) q hq
        show q.idx - 1 = (i : Int)
        rw [hqidx]
        omega

lemma idxOk_indentLoop : ∀ (n : Nat) (st : EditorConfig) (i : Nat),
    idxOk st.rows → idxOk (insertIndentLoop st n i).rows := by
  intro n
  induction n with
  | zero => intro st i h; exact h
  | succ n ih =>
    intro st i h
    unfold insertIndentLoop
    dsimp only
    exact ih _ _ (idxOk_rowInsertChar _ _ _ _ h)

/-- Splitting a row (`editorInsertNewline`) preserves the index invariant:
both halves go through `editorInsertRow`'s renumbering, and the auto-indent
loop only edits characters. -/
lemma idxOk_insertNewline (st : EditorConfig) (h : idxOk st.rows) :
    idxOk (editorInsertNewline st).rows := by
  unfold editorInsertNewline
  dsimp only
  repeat' split
  all_goals first
    | exact idxOk_indentLoop _ _ _ (idxOk_insertRow _ _ _ h)
    | exact idxOk_insertRow _ _ _ h
    | exact idxOk_indentLoop _ _ _
        (idxOk_updateRowAt _ _ (idxOk_rowsSet _ _ _ rfl (idxOk_insertRow _ _ _ h)))
    | exact idxOk_updateRowAt _ _
        (idxOk_rowsSet _ _ _ rfl (idxOk_insertRow _ _ _ h))

/-- Backspace (`editorDelChar`), including the join-with-previous-row path,
preserves the index invariant. -/
lemma idxOk_delChar (st : EditorConfig) (h : idxOk st.rows) :
    idxOk (editorDelChar st).rows := by
  unfold editorDelChar
  dsimp only
  split
  · exact h
  · split
    · exact h
    · split
      · exact idxOk_rowDelChar _ _ _ h
      · exact idxOk_delRow _ _ (idxOk_rowAppendString _ _ _ h)

lemma writeBlock_length : ∀ (temp rows : List erow) (pos : Nat),
    (writeBlock rows pos temp).length = rows.length := by
  intro temp
  induction temp with
  | nil => intro rows pos; rfl
  | cons r rest ih =>
    intro rows pos
    unfold writeBlock
    rw [ih, List.length_set]

lemma writeBlock_getElem?_out : ∀ (temp rows : List erow) (pos i : Nat),
    (i < pos ∨ pos + temp.length ≤ i) →
    (writeBlock rows pos temp)[i]? = rows[i]? := by
  intro temp
  induction temp with
  | nil => intro rows pos i hout; rfl
  | cons r rest ih =>
    intro rows pos i hout
    rw [List.length_cons] at hout
    unfold writeBlock
    rw [ih _ _ _ (by omega), List.getElem?_set_ne (by omega)]

lemma reindexGo_length (hi : Int) : ∀ (fuel : Nat) (st : EditorConfig) (lo : Int),
    (reindexGo hi fuel st lo).rows.length = st.rows.length := by
  intro fuel
  induction fuel with
  | zero => intro st lo; rfl
  | succ fuel ih =>
    intro st lo
    unfold reindexGo
    split
    · rfl
    · dsimp only
      rw [ih, length_updateRowAt]
      show (rowsSet st.rows lo _).length = _
      unfold rowsSet
      rw [List.length_set]

lemma idx_update_rowsSet (st : EditorConfig) (j : Int) (r : erow) (i : Nat) :
    ((editorUpdateRowAt { st with rows := rowsSet st.rows j r } j).rows.getD
        i emptyErow).idx
      = ((rowsSet st.rows j r).getD i emptyErow).idx := by
  rw [idx_after_update]

/-- The reindex-and-update loop of the vertical block moves: rows in
`[lo, hi]` get `idx` set to their position, rows outside keep their stored
index. -/
lemma reindexGo_idx (hi : Int) : ∀ (fuel : Nat) (st : EditorConfig) (lo : Int),
    0 ≤ lo → hi + 1 - lo ≤ (fuel : Int) →
    ∀ i : Nat, i < st.rows.length →
      ((reindexGo hi fuel st lo).rows.getD i emptyErow).idx
        = if lo ≤ (i : Int) ∧ (i : Int) ≤ hi then (i : Int)
          else (st.rows.getD i emptyErow).idx := by
  intro fuel
  induction fuel with
  | zero =>
    intro st lo hlo hf i hilen
    rw [if_neg (by omega)]
    rfl
  | succ fuel ih =>
    intro st lo hlo hf i hilen
    unfold reindexGo
    split
    · next hgt => rw [if_neg (by omega)]
    · next hgt =>
      dsimp only
      rw [ih _ _ (by omega) (by omega) i
        (by rw [length_updateRowAt]
            show i < (rowsSet st.rows lo _).length
            unfold rowsSet
            rw [List.length_set]
            exact hilen)]
      by_cases h1 : lo + 1 ≤ (i : Int) ∧ (i : Int) ≤ hi
      · rw [if_pos h1, if_pos (by omega)]
      · rw [if_neg h1, idx_update_rowsSet]
        by_cases h2 : (i : Int) = lo
        · rw [if_pos (by omega)]
          unfold rowsSet
          rw [show lo.toNat = i by omega, getD_set_self_lt _ _ _ _ hilen]
          show lo = (i : Int)
          omega
        · rw [if_neg (by omega)]
          unfold rowsSet
          rw [List.getD_eq_getElem?_getD,
            List.getElem?_set_ne (show lo.toNat ≠ i by omega),
            ← List.getD_eq_getElem?_getD]

lemma reindexRange_length (st : EditorConfig) (lo hi : Int) :
    (reindexUpdateRange st lo hi).rows.length = st.rows.length := by
  unfold reindexUpdateRange
  exact reindexGo_length hi _ st lo

lemma reindexRange_idx (st : EditorConfig) (lo hi : Int) (hlo : 0 ≤ lo)
    (i : Nat) (hilen : i < st.rows.length) :
    ((reindexUpdateRange st lo hi).rows.getD i emptyErow).idx
      = if lo ≤ (i : Int) ∧ (i : Int) ≤ hi then (i : Int)
        else (st.rows.getD i emptyErow).idx := by
  unfold reindexUpdateRange
  exact reindexGo_idx hi _ st lo hlo (by omega) i hilen

/-- The vertical block moves preserve the index invariant: the moved rows
are renumbered by the reindex loop and the rows outside the shuffled window
are untouched. -/
lemma idxOk_moveSelectionVertical (st : EditorConfig) (key : Nat)
    (hk : key = ARROW_UP ∨ key = ARROW_DOWN) (h : idxOk st.rows) :
    idxOk (editorMoveSelection st key).rows := by
  rcases hk with hk | hk <;> subst hk
  · unfold editorMoveSelection
    rw [if_neg (by decide), if_neg (by decide), if_pos rfl]
    split
    · exact h
    · dsimp only
      generalize hns : (if st.selection_start_cy > st.selection_end_cy
          then st.selection_end_cy else st.selection_start_cy) = ns
      generalize hne : (if st.selection_start_cy > st.selection_end_cy
          then st.selection_start_cy else st.selection_end_cy) = ne
      have hnsne : ns ≤ ne := by
        rw [← hns, ← hne]
        by_cases hc : st.selection_start_cy > st.selection_end_cy
        · rw [if_pos hc, if_pos hc]
          omega
        · rw [if_neg hc, if_neg hc]
          omega
      split
      · exact h
      · rename_i hns0
        split
        · exact h
        · rename_i hb
          have hmain : idxOk (reindexUpdateRange
              { st with rows := writeBlock
                            (rowsSet st.rows ne (rowGet st.rows (ns - 1)))
                            (ns - 1).toNat
                            ((st.rows.drop ns.toNat).take (ne - ns + 1).toNat) }
              (ns - 1) ne).rows := by
            intro i hilen
            rw [reindexRange_length] at hilen
            dsimp only at hilen
            rw [writeBlock_length] at hilen
            unfold rowsSet at hilen
            rw [List.length_set] at hilen
            rw [reindexRange_idx _ _ _ (by omega) i (by
              dsimp only
              rw [writeBlock_length]
              unfold rowsSet
              rw [List.length_set]
              exact hilen)]
            by_cases hin : ns - 1 ≤ (i : Int) ∧ (i : Int) ≤ ne
            · rw [if_pos hin]
            · rw [if_neg hin]
              dsimp only
              rw [List.getD_eq_getElem?_getD]
              rw [writeBlock_getElem?_out _ _ _ _ (by
                rw [List.length_take, List.length_drop,
                  Nat.min_eq_left (by omega)]
                omega)]
              unfold rowsSet
              rw [List.getElem?_set_ne (show ne.toNat ≠ i by omega),
                ← List.getD_eq_getElem?_getD]
              exact h i hilen
          split
          · exact hmain
          · exact hmain
  · unfold editorMoveSelection
    rw [if_neg (by decide), if_neg (by decide), if_neg (by decide), if_pos rfl]
    split
    · exact h
    · dsimp only
      generalize hns : (if st.selection_start_cy > st.selection_end_cy
          then st.selection_end_cy else st.selection_start_cy) = ns
      generalize hne : (if st.selection_start_cy > st.selection_end_cy
          then st.selection_start_cy else st.selection_end_cy) = ne
      have hnsne : ns ≤ ne := by
        rw [← hns, ← hne]
        by_cases hc : st.selection_start_cy > st.selection_end_cy
        · rw [if_pos hc, if_pos hc]
          omega
        · rw [if_neg hc, if_neg hc]
          omega
      split
      · exact h
      · rename_i hbot
        split
        · exact h
        · rename_i hb
          have hmain : idxOk (reindexUpdateRange
              { st with rows := writeBlock
                            (rowsSet st.rows ns (rowGet st.rows (ne + 1)))
                            (ns + 1).toNat
                            ((st.rows.drop ns.toNat).take (ne - ns + 1).toNat) }
              ns (ne + 1)).rows := by
            intro i hilen
            rw [reindexRange_length] at hilen
            dsimp only at hilen
            rw [writeBlock_length] at hilen
            unfold rowsSet at hilen
            rw [List.length_set] at hilen
            rw [reindexRange_idx _ _ _ (by omega) i (by
              dsimp only
              rw [writeBlock_length]
              unfold rowsSet
              rw [List.length_set]
              exact hilen)]
            by_cases hin : ns ≤ (i : Int) ∧ (i : Int) ≤ ne + 1
            · rw [if_pos hin]
            · rw [if_neg hin]
              dsimp only
              rw [List.getD_eq_getElem?_getD]
              rw [writeBlock_getElem?_out _ _ _ _ (by
                rw [List.length_take, List.length_drop,
                  Nat.min_eq_left (by omega)]
                omega)]
              unfold rowsSet
              rw [List.getElem?_set_ne (show ns.toNat ≠ i by omega),
                ← List.getD_eq_getElem?_getD]
              exact h i hilen
          split
          · exact hmain
          · exact hmain

/-! Character-content preservation of the reindex/update loop and the
block-copy loop, for the vertical-move characterization. -/

lemma charsOf_set_same (rows : List erow) (i : Nat) (r' : erow)
    (h : r'.chars = (rows.getD i emptyErow).chars) :
    (rows.set i r').map erow.chars = rows.map erow.chars := by
  by_cases hi : i < rows.length
  · rw [List.map_set, h, chars_getD,
      set_getD_self _ _ _ (by rw [List.length_map]; omega)]
  · rw [List.set_eq_of_length_le (by omega)]

lemma charsOf_updateRowAt (st : EditorConfig) (j : Int) :
    (editorUpdateRowAt st j).rows.map erow.chars = st.rows.map erow.chars := by
  unfold editorUpdateRowAt
  exact charsOf_updateRowAtN _ _ _

lemma reindexGo_charsOf (hi : Int) : ∀ (fuel : Nat) (st : EditorConfig) (lo : Int),
    (reindexGo hi fuel st lo).rows.map erow.chars = st.rows.map erow.chars := by
  intro fuel
  induction fuel with
  | zero => intro st lo; rfl
  | succ fuel ih =>
    intro st lo
    unfold reindexGo
    split
    · rfl
    · dsimp only
      rw [ih, charsOf_updateRowAt]
      show (rowsSet st.rows lo _).map erow.chars = _
      unfold rowsSet
      exact charsOf_set_same _ _ _ rfl

lemma reindexRange_charsOf (st : EditorConfig) (lo hi : Int) :
    (reindexUpdateRange st lo hi).rows.map erow.chars
      = st.rows.map erow.chars := by
  unfold reindexUpdateRange
  exact reindexGo_charsOf hi _ st lo

lemma reindexGo_selfields (hi : Int) : ∀ (fuel : Nat) (st : EditorConfig) (lo : Int),
    (reindexGo hi fuel st lo).selection_start_cy = st.selection_start_cy
    ∧ (reindexGo hi fuel st lo).selection_end_cy = st.selection_end_cy := by
  intro fuel
  induction fuel with
  | zero => intro st lo; exact ⟨rfl, rfl⟩
  | succ fuel ih =>
    intro st lo
    unfold reindexGo
    split
    · exact ⟨rfl, rfl⟩
    · dsimp only
      constructor
      · rw [(ih _ _).1]
        unfold editorUpdateRowAt
        exact (updateRowAtN_fields _ _ _).2.2.2.2.1
      · rw [(ih _ _).2]
        unfold editorUpdateRowAt
        exact (updateRowAtN_fields _ _ _).2.2.2.2.2.2.1

lemma reindexRange_selfields (st : EditorConfig) (lo hi : Int) :
    (reindexUpdateRange st lo hi).selection_start_cy = st.selection_start_cy
    ∧ (reindexUpdateRange st lo hi).selection_end_cy = st.selection_end_cy := by
  unfold reindexUpdateRange
  exact reindexGo_selfields hi _ st lo

/-- The block-copy loop writes `temp` contiguously at `pos`. -/
lemma writeBlock_eq : ∀ (temp rows : List erow) (pos : Nat),
    pos + temp.length ≤ rows.length →
    writeBlock rows pos temp
      = rows.take pos ++ temp ++ rows.drop (pos + temp.length) := by
  intro temp
  induction temp with
  | nil =>
    intro rows pos hlen
    simp only [List.length_nil, Nat.add_zero, List.append_nil,
      List.take_append_drop]
    rfl
  | cons r rest ih =>
    intro rows pos hlen
    rw [List.length_cons] at hlen
    unfold writeBlock
    rw [ih _ _ (by rw [List.length_set]; omega)]
    rw [List.set_take, set_take_last _ _ _ (by omega)]
    rw [List.drop_set_of_lt _ _ (by omega)]
    rw [List.length_cons,
      show pos + (rest.length + 1) = pos + 1 + rest.length by omega]
    simp only [List.append_assoc, List.singleton_append, List.cons_append,
      List.nil_append]

/-- C2: every structural mutation of the row store — row insertion, row
deletion, row split (`editorInsertNewline`), row join (`editorDelChar` at
column 0) and the vertical block moves — preserves the invariant
`row[i].idx == i`. -/
theorem C2_row_index_invariant (st : EditorConfig) (h : idxOk st.rows) :
    (∀ (a : Int) (s : List Char), idxOk (editorInsertRow st a s).rows)
    ∧ (∀ a : Int, idxOk (editorDelRow st a).rows)
    ∧ idxOk (editorInsertNewline st).rows
    ∧ idxOk (editorDelChar st).rows
    ∧ (∀ key : Nat, key = ARROW_UP ∨ key = ARROW_DOWN →
        idxOk (editorMoveSelection st key).rows) :=
  ⟨fun a s => idxOk_insertRow st a s h,
   fun a => idxOk_delRow st a h,
   idxOk_insertNewline st h,
   idxOk_delChar st h,
   fun key hk => idxOk_moveSelectionVertical st key hk h⟩

/-- C2 at the three-row state with row 1 selected as a full line. -/
theorem C2_witness :
    idxOk stFullLine.rows
    ∧ ((∀ (a : Int) (s : List Char), idxOk (editorInsertRow stFullLine a s).rows)
      ∧ (∀ a : Int, idxOk (editorDelRow stFullLine a).rows)
      ∧ idxOk (editorInsertNewline stFullLine).rows
      ∧ idxOk (editorDelChar stFullLine).rows
      ∧ (∀ key : Nat, key = ARROW_UP ∨ key = ARROW_DOWN →
          idxOk (editorMoveSelection stFullLine key).rows)) :=
  ⟨by decide, C2_row_index_invariant stFullLine (by decide)⟩

/-- C8: the vertical block move is guarded by the full-lines check: when the
selection does not span whole rows the key is rejected with a status message
and the state (document included) is unchanged; when it does, and the block
is not at the document edge, the selected rows `[s, e]` are swapped with the
adjacent row (above for `ARROW_UP`, below for `ARROW_DOWN`) and the stored
selection rows shift with the block. -/
theorem C8_vertical_move_requires_full_lines (st : EditorConfig) (s e : Nat)
    (hscy : st.selection_start_cy = (s : Int))
    (hecy : st.selection_end_cy = (e : Int))
    (hse : s ≤ e) :
    (editorCanMoveSelectionVertical st = false →
      editorMoveSelection st ARROW_UP
        = editorSetStatusMessage st
            "Cannot move selection up - selection must be full lines"
      ∧ editorMoveSelection st ARROW_DOWN
        = editorSetStatusMessage st
            "Cannot move selection down - selection must be full lines")
    ∧ (editorCanMoveSelectionVertical st = true → 1 ≤ s →
        e < st.rows.length →
        (editorMoveSelection st ARROW_UP).rows.map erow.chars
          = (st.rows.map erow.chars).take (s - 1)
            ++ ((st.rows.map erow.chars).drop s).take (e - s + 1)
            ++ [(st.rows.map erow.chars).getD (s - 1) []]
            ++ (st.rows.map erow.chars).drop (e + 1)
        ∧ (editorMoveSelection st ARROW_UP).statusmsg = "Selection moved up"
        ∧ (editorMoveSelection st ARROW_UP).selection_start_cy = (s : Int) - 1
        ∧ (editorMoveSelection st ARROW_UP).selection_end_cy = (e : Int) - 1)
    ∧ (editorCanMoveSelectionVertical st = true → e + 1 < st.rows.length →
        (editorMoveSelection st ARROW_DOWN).rows.map erow.chars
          = (st.rows.map erow.chars).take s
            ++ [(st.rows.map erow.chars).getD (e + 1) []]
            ++ ((st.rows.map erow.chars).drop s).take (e - s + 1)
            ++ (st.rows.map erow.chars).drop (e + 2)
        ∧ (editorMoveSelection st ARROW_DOWN).statusmsg
            = "Selection moved down"
        ∧ (editorMoveSelection st ARROW_DOWN).selection_start_cy = (s : Int) + 1
        ∧ (editorMoveSelection st ARROW_DOWN).selection_end_cy
            = (e : Int) + 1) := by
  refine ⟨?_, ?_, ?_⟩
  · intro hfl
    constructor
    · unfold editorMoveSelection
      rw [if_neg (by decide), if_neg (by decide), if_pos rfl,
        if_pos (show ¬(editorCanMoveSelectionVertical st = true) by
          simp [hfl])]
    · unfold editorMoveSelection
      rw [if_neg (by decide), if_neg (by decide), if_neg (by decide),
        if_pos rfl,
        if_pos (show ¬(editorCanMoveSelectionVertical st = true) by
          simp [hfl])]
  · intro hcan hs1 helen
    unfold editorMoveSelection
    rw [if_neg (by decide), if_neg (by decide), if_pos rfl,
      if_neg (show ¬¬(editorCanMoveSelectionVertical st = true) by
        simp [hcan])]
    dsimp only [editorSetStatusMessage]
    rw [hscy, hecy]
    have hgt : ¬((s : Int) > (e : Int)) := by omega
    rw [if_neg hgt, if_neg hgt]
    rw [if_neg (show ¬((s : Int) = 0) by omega)]
    rw [if_neg (show ¬((e : Int) ≥ (st.rows.length : Int) ∨ (s : Int) < 0) by
      omega)]
    rw [show ((s : Int) - 1) = ((s - 1 : Nat) : Int) by omega]
    simp only [rowsSet_natCast, rowGet_natCast, Int.toNat_natCast]
    rw [show ((e : Int) - (s : Int) + 1).toNat = e - s + 1 by omega]
    refine ⟨?_, by trivial, ?_, ?_⟩
    · split <;>
      · dsimp only
        rw [reindexRange_charsOf]
        dsimp only
        rw [writeBlock_eq _ _ _ (by
          rw [List.length_set, List.length_take, List.length_drop,
            Nat.min_eq_left (by omega)]
          omega)]
        have hTL : ((st.rows.drop s).take (e - s + 1)).length = e - s + 1 := by
          rw [List.length_take, List.length_drop, Nat.min_eq_left (by omega)]
        rw [hTL, show s - 1 + (e - s + 1) = e by omega]
        rw [List.take_set_of_lt _ _ (show s - 1 < e by omega)]
        rw [List.drop_set, if_neg (by omega), Nat.sub_self,
          List.drop_eq_getElem_cons (show e < st.rows.length by omega),
          List.set_cons_zero]
        simp only [List.map_append, List.map_cons, List.map_nil,
          List.map_take, List.map_drop]
        rw [chars_getD]
        simp only [List.append_assoc, List.singleton_append,
          List.cons_append, List.nil_append]
    · split <;>
      · dsimp only
        rw [(reindexRange_selfields _ _ _).1]
        dsimp only
        omega
    · split <;>
      · dsimp only
        rw [(reindexRange_selfields _ _ _).2]
  · intro hcan he2
    unfold editorMoveSelection
    rw [if_neg (by decide), if_neg (by decide), if_neg (by decide),
      if_pos rfl,
      if_neg (show ¬¬(editorCanMoveSelectionVertical st = true) by
        simp [hcan])]
    dsimp only [editorSetStatusMessage]
    rw [hscy, hecy]
    have hgt : ¬((s : Int) > (e : Int)) := by omega
    rw [if_neg hgt, if_neg hgt]
    rw [if_neg (show ¬((e : Int) ≥ (st.rows.length : Int) - 1) by omega)]
    rw [if_neg (show ¬((s : Int) < 0 ∨ (e : Int) + 1 ≥ (st.rows.length : Int))
      by omega)]
    rw [show ((s : Int) + 1) = ((s + 1 : Nat) : Int) by omega,
      show ((e : Int) + 1) = ((e + 1 : Nat) : Int) by omega]
    simp only [rowsSet_natCast, rowGet_natCast, Int.toNat_natCast]
    rw [show ((e : Int) - (s : Int) + 1).toNat = e - s + 1 by omega]
    refine ⟨?_, by trivial, ?_, ?_⟩
    · split <;>
      · dsimp only
        rw [reindexRange_charsOf]
        dsimp only
        rw [writeBlock_eq _ _ _ (by
          rw [List.length_set, List.length_take, List.length_drop,
            Nat.min_eq_left (by omega)]
          omega)]
        have hTL : ((st.rows.drop s).take (e - s + 1)).length = e - s + 1 := by
          rw [List.length_take, List.length_drop, Nat.min_eq_left (by omega)]
        rw [hTL, show s + 1 + (e - s + 1) = e + 2 by omega]
        rw [List.set_take, set_take_last _ _ _ (by omega)]
        rw [List.drop_set_of_lt _ _ (show s < e + 2 by omega)]
        simp only [List.map_append, List.map_cons, List.map_nil,
          List.map_take, List.map_drop]
        rw [chars_getD]
    · split <;>
      · dsimp only
        rw [(reindexRange_selfields _ _ _).1]
        dsimp only
        omega
    · split <;>
      · dsimp only
        rw [(reindexRange_selfields _ _ _).2]
        dsimp only
        omega

/-- C8 at the three-row state with row 1 selected as a full line: both
vertical moves are permitted there, and the rejection branch is available
whenever the full-lines check fails. -/
theorem C8_witness :
    (stFullLine.selection_start_cy = ((1 : Nat) : Int)
      ∧ stFullLine.selection_end_cy = ((1 : Nat) : Int)
      ∧ (1 : Nat) ≤ 1)
    ∧ ((editorCanMoveSelectionVertical stFullLine = false →
          editorMoveSelection stFullLine ARROW_UP
            = editorSetStatusMessage stFullLine
                "Cannot move selection up - selection must be full lines"
          ∧ editorMoveSelection stFullLine ARROW_DOWN
            = editorSetStatusMessage stFullLine
                "Cannot move selection down - selection must be full lines")
      ∧ (editorCanMoveSelectionVertical stFullLine = true → 1 ≤ 1 →
          1 < stFullLine.rows.length →
          (editorMoveSelection stFullLine ARROW_UP).rows.map erow.chars
            = (stFullLine.rows.map erow.chars).take (1 - 1)
              ++ ((stFullLine.rows.map erow.chars).drop 1).take (1 - 1 + 1)
              ++ [(stFullLine.rows.map erow.chars).getD (1 - 1) []]
              ++ (stFullLine.rows.map erow.chars).drop (1 + 1)
          ∧ (editorMoveSelection stFullLine ARROW_UP).statusmsg
              = "Selection moved up"
          ∧ (editorMoveSelection stFullLine ARROW_UP).selection_start_cy
              = ((1 : Nat) : Int) - 1
          ∧ (editorMoveSelection stFullLine ARROW_UP).selection_end_cy
              = ((1 : Nat) : Int) - 1)
      ∧ (editorCanMoveSelectionVertical stFullLine = true →
          1 + 1 < stFullLine.rows.length →
          (editorMoveSelection stFullLine ARROW_DOWN).rows.map erow.chars
            = (stFullLine.rows.map erow.chars).take 1
              ++ [(stFullLine.rows.map erow.chars).getD (1 + 1) []]
              ++ ((stFullLine.rows.map erow.chars).drop 1).take (1 - 1 + 1)
              ++ (stFullLine.rows.map erow.chars).drop (1 + 2)
          ∧ (editorMoveSelection stFullLine ARROW_DOWN).statusmsg
              = "Selection moved down"
          ∧ (editorMoveSelection stFullLine ARROW_DOWN).selection_start_cy
              = ((1 : Nat) : Int) + 1
          ∧ (editorMoveSelection stFullLine ARROW_DOWN).selection_end_cy
              = ((1 : Nat) : Int) + 1)) :=
  ⟨⟨by decide, by decide, by decide⟩,
    C8_vertical_move_requires_full_lines stFullLine 1 1 (by decide) (by decide)
      (by decide)⟩

end Wee
